import Mathlib

/-!
Verification of the unstructured-grid conversion engine (OpenFOAM PolyMesh /
VTK VTU codecs) against its natural-language specification.

The Python sources `io_vtu.py` and `io_polymesh.py` are embedded shallowly:
pure helpers become Lean functions, the mutable global topology becomes an
explicit state record threaded through the functions, and Python exceptions
become an error component carried alongside the state (mutations performed
before a raise persist, exactly as with Python's global lists).

The shared data-model module (`ug.py`: the `UGVertex`/`UGFace`/`UGCell`/
`UGBoundary` classes and their constructors) is not part of the available
sources; the definitions standing in for it are marked
`Modelled from the spec:` and follow the specification's description of the
Topology Model.
-/

namespace UG

/-! ## Canonical vertex-key strings (io_vtu.py `get_vert_string`)

Python's `str(i)` for a nonnegative integer is its decimal digit string.
`pyStrAux` is a fuel-based structural rendition so that the kernel can
evaluate it; its agreement with `Nat.digits` is proved below. -/

def digitChar (d : Nat) : Char :=
  match d with
  | 0 => '0' | 1 => '1' | 2 => '2' | 3 => '3' | 4 => '4'
  | 5 => '5' | 6 => '6' | 7 => '7' | 8 => '8' | 9 => '9'
  | _ => 'x'

def pyStrAux : Nat → Nat → List Char
  | 0, _ => []
  | fuel + 1, n =>
    if n = 0 then [] else pyStrAux fuel (n / 10) ++ [digitChar (n % 10)]

/-- Decimal digit characters of `n`, as Python's `str` produces for a
nonnegative integer. -/
def pyStrChars (n : Nat) : List Char :=
  if n = 0 then ['0'] else pyStrAux (n + 1) n

def pyStr (n : Nat) : String :=
  String.mk (pyStrChars n)


/-- One comma-terminated block per number. -/
def encodeChars (l : List Nat) : List Char :=
  (l.map (fun n => pyStrChars n ++ [','])).flatten


/-- Embedding of `get_vert_string` (io_vtu.py): sort the vertex index list
ascending and concatenate each index's decimal string followed by a comma. -/
def get_vert_string (vilist : List Nat) : String :=
  (List.insertionSort (· ≤ ·) vilist).foldl (fun s i => s ++ pyStr i ++ ",") ""


/-- Error taxonomy. The Python source raises `ValueError`/`IndexError`; the
constructor names follow the specification's error taxonomy (§7). -/
inductive VtuErr where
  | duplicateFaceOwnership
  | malformedPolyhedron (polyfacelist : List Nat)
  | unsupportedCellType (tag : Nat)
  | indexError
deriving DecidableEq

/-- Modelled from the spec: the `UGFace` record of the absent `ug.py` data
model — "ordered sequence of vertex references (defines both geometry and
winding), an owner-cell reference (always present), an optional
neighbour-cell reference (absent ⇒ boundary face)" (§3). Cell references
are indices into the cell registry. -/
structure UGFaceV where
  verts : List Nat
  owner : Option Nat
  neighbour : Option Nat
deriving DecidableEq

/-- Modelled from the spec: the `UGCell` record of the absent `ug.py` data
model — "unique identity, collection of face references, derived collection
of vertex references (the union of its faces' vertices, deduplicated),
deleted flag" (§3). -/
structure UGCellV where
  ii : Nat
  ugfaces : List Nat
  ugverts : List Nat
  deleted : Bool
deriving DecidableEq

/-- The process-wide mutable topology collections ("ambient global
registries", spec §9) together with the import pass's face map. -/
structure VtuState where
  ugcells : List UGCellV
  ugfaces : List UGFaceV
  facemap : List (String × Nat)
deriving DecidableEq

def VtuState.empty : VtuState := ⟨[], [], []⟩

/-- Modelled from the spec: the `UGCell()` constructor of the absent
`ug.py` — creating a cell during import registers it in the process-wide
cell collection (§3 lifecycle, §9); io_vtu.py itself never appends the cell
anywhere, yet the VTU exporter reads it back from `ug.ugcells`. -/
def addUGCell (st : VtuState) : VtuState :=
  { st with ugcells := st.ugcells ++ [⟨st.ugcells.length, [], [], false⟩] }

/-- Modelled from the spec: the `UGFace(verts)` constructor of the absent
`ug.py` — "Key absent: create a new Face with this vertex order, set
owner = current cell" (§4.2); the face is registered in the face
collection. Returns the new face's registry index. -/
def addUGFace (verts : List Nat) (owner : Nat) (st : VtuState) : VtuState × Nat :=
  ({ st with ugfaces := st.ugfaces ++ [⟨verts, some owner, none⟩] }, st.ugfaces.length)

/-- Modelled from the spec: assigning `ugf.neighbour = c` on a Face of the
absent `ug.py` data model — "Key present: set neighbour = current cell on
the existing Face (fails with `DuplicateFaceOwnership` if a neighbour is
already set — each face may be shared by at most two cells)" (§4.2, §7). -/
def setNeighbour (fi ci : Nat) (st : VtuState) : VtuState × Option VtuErr :=
  match st.ugfaces[fi]? with
  | none => (st, some .indexError)
  | some f =>
    if f.neighbour.isSome then (st, some .duplicateFaceOwnership)
    else ({ st with ugfaces := st.ugfaces.set fi { f with neighbour := some ci } }, none)

/-- Modelled from the spec: `c.add_face_and_verts(ugf)` of the absent
`ug.py` — "Each resolved Face is appended to the current cell's face
collection and each of its vertices' back-reference is established" (§4.2);
the cell's vertex collection is the deduplicated union of its faces'
vertices (§3). -/
def addFaceAndVerts (ci fi : Nat) (st : VtuState) : VtuState :=
  match st.ugcells[ci]?, st.ugfaces[fi]? with
  | some c, some f =>
    let c' : UGCellV :=
      { c with ugfaces := c.ugfaces ++ [fi],
               ugverts := f.verts.foldl
                 (fun vs v => if v ∈ vs then vs else vs ++ [v]) c.ugverts }
    { st with ugcells := st.ugcells.set ci c' }
  | _, _ => st

/-- Python list read `l[i]` for a nonnegative index (raises `IndexError`
out of range). -/
def pyGetNat (l : List Nat) (i : Nat) : Except VtuErr Nat :=
  if h : i < l.length then .ok l[i] else .error .indexError

/-- Python slice `l[a:b]` with nonnegative bounds. -/
def pySlice (l : List Nat) (a b : Nat) : List Nat :=
  (l.drop a).take (b - a)

/-- Embedding of the inner function `add_cell_faces` of `vtu_add_cell`
(io_vtu.py): for each face template, resolve absolute vertex indices
(identity for polyhedra), look the canonical key up in the face map, link
the existing face as neighbour or create and register a new owned face,
and add the face to the cell. -/
def add_cell_faces (ci : Nat) (fis : List (List Nat)) (vilist : List Nat)
    (isPoly : Bool) (st : VtuState) : VtuState × Option VtuErr :=
  match fis with
  | [] => (st, none)
  | fisverts :: rest =>
    let realRes : Except VtuErr (List Nat) :=
      if isPoly then .ok fisverts else fisverts.mapM (pyGetNat vilist)
    match realRes with
    | .error e => (st, some e)
    | .ok real =>
      let key := get_vert_string real
      match st.facemap.lookup key with
      | some fi =>
        match setNeighbour fi ci st with
        | (st', some e) => (st', some e)
        | (st', none) => add_cell_faces ci rest vilist isPoly (addFaceAndVerts ci fi st')
      | none =>
        let (st', fi) := addUGFace real ci st
        let st' := { st' with facemap := st'.facemap ++ [(key, fi)] }
        add_cell_faces ci rest vilist isPoly (addFaceAndVerts ci fi st')

/-- One step of the decoding loop of `get_polyhedron_fis` (io_vtu.py):
state is (status, numVerts, vertlist, fis). -/
def polyStep (s : Bool × Nat × List Nat × List (List Nat)) (n : Nat) :
    Bool × Nat × List Nat × List (List Nat) :=
  let status := s.1
  let numVerts := s.2.1
  let vertlist := s.2.2.1
  let fis := s.2.2.2
  let status' := if status then false else status
  let numVerts' := if status then n else numVerts
  let vertlist' := if status then [] else vertlist ++ [n]
  if vertlist'.length = numVerts' then (true, numVerts', vertlist', fis ++ [vertlist'])
  else (status', numVerts', vertlist', fis)

/-- Embedding of `get_polyhedron_fis` (io_vtu.py): the first entry declares
the face count; the remaining entries alternate a per-face vertex count with
that many vertex indices. A declared/decoded count mismatch raises
(`MalformedPolyhedron` in the specification's taxonomy). -/
def get_polyhedron_fis (polyfacelist : List Nat) : Except VtuErr (List (List Nat)) :=
  match polyfacelist with
  | [] => .error .indexError
  | nFaces :: rest =>
    let r := rest.foldl polyStep (true, 0, [], [])
    let fis := r.2.2.2
    if nFaces ≠ fis.length then .error (.malformedPolyhedron polyfacelist)
    else .ok fis

/-- Cell-archetype face templates (io_vtu.py `vtu_add_cell`). -/
def tetraFis : List (List Nat) := [[0,2,1], [0,1,3], [1,2,3], [0,3,2]]

def hexFis : List (List Nat) :=
  [[0,3,2,1], [0,1,5,4], [1,2,6,5], [2,3,7,6], [3,0,4,7], [7,4,5,6]]

def wedgeFis : List (List Nat) := [[0,1,2], [0,3,4,1], [1,4,5,2], [2,5,3,0], [3,5,4]]

def pyramidFis : List (List Nat) := [[0,3,2,1], [0,4,3], [3,4,2], [2,4,1], [1,4,0]]

def pentaFis : List (List Nat) :=
  [[0,1,2,3,4], [0,5,6,1], [1,6,7,2], [2,7,8,3], [3,8,9,4], [4,9,5,0], [9,8,7,6,5]]

def hexaFis : List (List Nat) :=
  [[0,1,2,3,4,5], [0,6,7,1], [1,7,8,2], [2,8,9,3], [3,9,10,4], [4,10,11,5],
   [5,11,6,0], [11,10,9,8,7,6]]

/-- Embedding of `vtu_add_cell` (io_vtu.py): create and register a new cell,
then dispatch on the VTK cell type to add its faces; polyhedron face
templates are decoded from `polyfacelist`; any other type raises
(`UnsupportedCellType` carrying the tag, in the specification's taxonomy). -/
def vtu_add_cell (vtk_cell_type : Nat) (vilist : List Nat) (polyfacelist : List Nat)
    (st : VtuState) : VtuState × Option VtuErr :=
  let ci := st.ugcells.length
  let st := addUGCell st
  if vtk_cell_type = 10 then add_cell_faces ci tetraFis vilist false st
  else if vtk_cell_type = 12 then add_cell_faces ci hexFis vilist false st
  else if vtk_cell_type = 13 then add_cell_faces ci wedgeFis vilist false st
  else if vtk_cell_type = 14 then add_cell_faces ci pyramidFis vilist false st
  else if vtk_cell_type = 15 then add_cell_faces ci pentaFis vilist false st
  else if vtk_cell_type = 16 then add_cell_faces ci hexaFis vilist false st
  else if vtk_cell_type = 42 then
    match get_polyhedron_fis polyfacelist with
    | .error e => (st, some e)
    | .ok fis => add_cell_faces ci fis vilist true st
  else (st, some (.unsupportedCellType vtk_cell_type))

/-- Embedding of the cell loop of `vtu_datalists_to_ugdata` (io_vtu.py):
iterate over the remaining cell indices `cis`, carrying `conn_index`,
`offset_index` and the topology state. Besides the final state, the list of
the `polyfacelist` slices handed to `vtu_add_cell` for each processed cell
is returned (the loop's observable per-cell data), together with the
uncaught error, if any, that aborted the loop. -/
def vtuLoopAux (connectivities offsets celltypes cellfaces cellfaceoffsets : List Nat) :
    List Nat → Nat → Nat → VtuState → VtuState × List (List Nat) × Option VtuErr
  | [], _, _, st => (st, [], none)
  | ci :: rest, conn_index, offset_index, st =>
    let vtk_cell_type := celltypes.getD ci 0
    match offsets[ci]? with
    | none => (st, [], some .indexError)
    | some conn_end =>
      let vilist := pySlice connectivities conn_index conn_end
      if vtk_cell_type = 42 then
        match cellfaceoffsets[ci]? with
        | none => (st, [], some .indexError)
        | some co =>
          let polyfacelist := pySlice cellfaces offset_index (co + 1)
          match vtu_add_cell 42 vilist polyfacelist st with
          | (st', some e) => (st', [polyfacelist], some e)
          | (st', none) =>
            let r := vtuLoopAux connectivities offsets celltypes cellfaces
              cellfaceoffsets rest conn_end co st'
            (r.1, polyfacelist :: r.2.1, r.2.2)
      else
        match vtu_add_cell vtk_cell_type vilist [] st with
        | (st', some e) => (st', [([] : List Nat)], some e)
        | (st', none) =>
          let r := vtuLoopAux connectivities offsets celltypes cellfaces
            cellfaceoffsets rest conn_end offset_index st'
          (r.1, ([] : List Nat) :: r.2.1, r.2.2)

/-- Embedding of `vtu_datalists_to_ugdata` (io_vtu.py): loop over all cells
starting from an empty topology, `conn_index = 0` and `offset_index = 0`. -/
def vtu_datalists_to_ugdata (connectivities offsets celltypes cellfaces
    cellfaceoffsets : List Nat) : VtuState × List (List Nat) × Option VtuErr :=
  vtuLoopAux connectivities offsets celltypes cellfaces cellfaceoffsets
    (List.range celltypes.length) 0 0 VtuState.empty

/-! ## VTU export: types and offsets block -/

/-- Embedding of `generate_types_offsets_text` (io_vtu.py): walk the cell
registry skipping deleted cells, emit type 42 for every cell, accumulate
cumulative vertex counts as offsets, and return the two text blocks, the
last offset (`offsetlist[-1]`, an `IndexError` — modelled as `none` — when
the offset list is empty) and the cell count. -/
def typesOffsetsStep (acc : List Nat × List Nat × Nat × Nat) (c : UGCellV) :
    List Nat × List Nat × Nat × Nat :=
  if c.deleted then acc
  else
    let nVert := acc.2.2.1 + c.ugverts.length
    (acc.1 ++ [42], acc.2.1 ++ [nVert], nVert, acc.2.2.2 + 1)

def generate_types_offsets_text (ugcells : List UGCellV) :
    Option (String × String × Nat × Nat) :=
  let r := ugcells.foldl typesOffsetsStep ([], [], 0, 0)
  let celltypes := String.intercalate " " (r.1.map pyStr) ++ "\n"
  let offsets := String.intercalate " " (r.2.1.map pyStr) ++ "\n"
  match r.2.1.getLast? with
  | none => none
  | some m => some (celltypes, offsets, m, r.2.2.2)


/-- The value of the import loop's `offset_index` when it reaches cell `j`:
0 initially, and set to `cellfaceoffsets[p]` by each polyhedron cell `p`
processed earlier (io_vtu.py `vtu_datalists_to_ugdata`). -/
def prevOff (celltypes cellfaceoffsets : List Nat) : Nat → Nat
  | 0 => 0
  | j + 1 =>
    if celltypes.getD j 0 = 42 then cellfaceoffsets.getD j 0
    else prevOff celltypes cellfaceoffsets j

/-! ## PolyMesh model (io_polymesh.py)

io_polymesh.py manipulates the same global topology through a different,
index-based interface (`owneri`/`neighbouri`/`facei`/`mati` integer fields
with −1 for "absent", matching the spec's optional references). It is
embedded with its own record types mirroring the fields the file uses. -/

/-- Python `ValueError`/`IndexError` on the PolyMesh import path. -/
inductive PMErr where
  | indexError
  | maxEmpty
deriving DecidableEq

/-- Modelled from the spec: the Face record as used by io_polymesh.py
(absent `ug.py`): vertex list, owner/neighbour cell indices (−1 = absent),
material/patch index (−1 until boundary assignment, §3), transient export
face index, deleted flag. -/
structure PMFace where
  verts : List Nat
  owneri : Int
  neighbouri : Int
  mati : Int
  facei : Int
  deleted : Bool
deriving DecidableEq

/-- Modelled from the spec: the Cell record as used by io_polymesh.py:
identity, face-index list, transient export cell index, deleted flag. -/
structure PMCell where
  ii : Nat
  faces : List Nat
  celli : Int
  deleted : Bool
deriving DecidableEq

/-- Modelled from the spec: a BoundaryPatch record (§3). -/
structure PMBoundary where
  patchname : String
  typename : String
  inGroups : String
  nFaces : Nat
  startFace : Nat
  deleted : Bool
deriving DecidableEq

/-- Modelled from the spec: `UGCell(i)` constructor (PolyMesh import). -/
def mkPMCell (i : Nat) : PMCell := ⟨i, [], -1, false⟩

/-- Modelled from the spec: `UGFace(i, verts)` constructor (PolyMesh
import): a face with no owner, neighbour or patch assignment yet. -/
def mkPMFace (i : Nat) (verts : List Nat) : PMFace := ⟨verts, -1, -1, -1, (i : Int), false⟩

/-- Python `str` on a (possibly negative) integer. -/
def pyStrInt (z : Int) : String :=
  if z < 0 then "-" ++ pyStr z.natAbs else pyStr z.toNat

/-- Resolve a Python list index (negative indices wrap from the end;
out-of-range raises `IndexError`, modelled as `none`). -/
def pyIdxInt (len : Nat) (z : Int) : Option Nat :=
  if z < 0 then (if z.natAbs ≤ len then some (len - z.natAbs) else none)
  else (if z.toNat < len then some z.toNat else none)

/-- `ugcells[c].faces.append(i)` (io_polymesh.py `polymesh_get_faces`). -/
def appendFaceTo (cells : List PMCell) (c : Nat) (i : Nat) : List PMCell :=
  match cells[c]? with
  | none => cells
  | some cell => cells.set c { cell with faces := cell.faces ++ [i] }

/-- Edge loop of one internal face (io_polymesh.py `polymesh_get_faces`):
Python's `(face_verts[i][j-1], face_verts[i][j])` for `j = 0` wraps to the
last vertex. -/
def edgeLoop (fv : List Nat) : List (Nat × Nat) :=
  (List.range fv.length).map
    (fun j => (fv.getD ((j + fv.length - 1) % fv.length) 0, fv.getD j 0))

/-- One iteration of the face loop of `polymesh_get_faces` (io_polymesh.py):
create and register face `i`, set its owner, append it to the owner cell's
face list; if `i < len(neighbour)` set the neighbour likewise (optionally
generating edge pairs), otherwise record the face as a drawable boundary
polygon. -/
def polymesh_face_step (gen_edges : Bool) (owner neighbour : List Nat)
    (face_verts : List (List Nat)) (i : Nat)
    (acc : List (Nat × Nat) × List (List Nat) × List PMCell × List PMFace) :
    Except PMErr (List (Nat × Nat) × List (List Nat) × List PMCell × List PMFace) :=
  let edges := acc.1
  let polys := acc.2.1
  let cells := acc.2.2.1
  let faces := acc.2.2.2
  let fv := face_verts.getD i []
  match owner[i]? with
  | none => .error .indexError
  | some ow =>
    let ugface := { mkPMFace i fv with owneri := (ow : Int) }
    let cells := appendFaceTo cells ow i
    match neighbour[i]? with
    | some nb =>
      if nb < cells.length then
        let ugface := { ugface with neighbouri := (nb : Int) }
        let cells := appendFaceTo cells nb i
        let edges := if gen_edges then edges ++ edgeLoop fv else edges
        .ok (edges, polys, cells, faces ++ [ugface])
      else .error .indexError
    | none =>
      .ok (edges, polys ++ [fv], cells, faces ++ [ugface])

/-- The face loop of `polymesh_get_faces`, over the remaining face
indices. -/
def polymesh_faces_go (gen_edges : Bool) (owner neighbour : List Nat)
    (face_verts : List (List Nat)) :
    List Nat → (List (Nat × Nat) × List (List Nat) × List PMCell × List PMFace) →
    Except PMErr (List (Nat × Nat) × List (List Nat) × List PMCell × List PMFace)
  | [], acc => .ok acc
  | i :: rest, acc =>
    match polymesh_face_step gen_edges owner neighbour face_verts i acc with
    | .error e => .error e
    | .ok acc' => polymesh_faces_go gen_edges owner neighbour face_verts rest acc'

/-- Embedding of `polymesh_get_faces` (io_polymesh.py): create
`max(owner) + 1` cells (`max` of an empty list raises), then run the face
loop over all face indices starting from empty edge/polygon/face lists. -/
def polymesh_get_faces (gen_edges : Bool) (owner neighbour : List Nat)
    (face_verts : List (List Nat)) :
    Except PMErr (List (Nat × Nat) × List (List Nat) × List PMCell × List PMFace) :=
  match owner.max? with
  | none => .error .maxEmpty
  | some mx =>
    let cells := (List.range (mx + 1)).map mkPMCell
    polymesh_faces_go gen_edges owner neighbour face_verts
      (List.range face_verts.length) ([], [], cells, [])

/-! ## PolyMesh export (io_polymesh.py) -/

/-- Embedding of `of_file_header` (io_polymesh.py). -/
def of_file_header (class_name object_name : String) : String :=
  "FoamFile\n\x7b\n    version     2.0;\n    format      ascii;\n    class       "
    ++ class_name ++ ";\n    object      " ++ object_name ++ ";\n\x7d\n"

/-- Embedding of `gen_line` of `update_text_faces` (io_polymesh.py);
`verts[-1]` raises on an empty vertex list. -/
def gen_line (verts : List Nat) : Option String :=
  match verts.getLast? with
  | none => none
  | some last =>
    some (pyStr verts.length ++ "("
      ++ String.join (verts.dropLast.map (fun v => pyStr v ++ " "))
      ++ pyStr last ++ ")\n")

/-- The face-selection criterion of `face_pass` (io_polymesh.py): deleted
faces are skipped; the internal pass takes faces with a neighbour, the
boundary pass faces without. -/
def facePassSelB (internal : Bool) (f : PMFace) : Bool :=
  !f.deleted && (if internal then !(f.neighbouri == -1) else f.neighbouri == -1)

/-- `if ugcells[z].celli == -1: ugcells[z].celli = celli; celli += 1`
(io_polymesh.py `face_pass`). -/
def assignCelli (cells : List PMCell) (celli : Nat) (z : Int) :
    Option (List PMCell × Nat) :=
  match pyIdxInt cells.length z with
  | none => none
  | some j =>
    match cells[j]? with
    | none => none
    | some c =>
      if c.celli = -1 then some (cells.set j { c with celli := (celli : Int) }, celli + 1)
      else some (cells, celli)

/-- The face loop of `face_pass` (io_polymesh.py): walk the face list,
skip non-selected faces, set each selected face's export index `facei`,
emit its definition line, and (internal pass) assign fresh `celli` indices
to its owner and neighbour cells. -/
def face_pass_go (internal : Bool) :
    List PMFace → Nat → List PMCell → Nat →
    Option (String × Nat × List PMFace × List PMCell × Nat)
  | [], i, cells, celli => some ("", i, [], cells, celli)
  | f :: rest, i, cells, celli =>
    if facePassSelB internal f then
      let f' := { f with facei := (i : Int) }
      match gen_line f'.verts with
      | none => none
      | some line =>
        let step :=
          if internal then
            match assignCelli cells celli f.owneri with
            | none => none
            | some (cells1, celli1) => assignCelli cells1 celli1 f.neighbouri
          else some (cells, celli)
        match step with
        | none => none
        | some (cells2, celli2) =>
          match face_pass_go internal rest (i + 1) cells2 celli2 with
          | none => none
          | some (text, i', rest', cells', celli') =>
            some (line ++ text, i', f' :: rest', cells', celli')
    else
      match face_pass_go internal rest i cells celli with
      | none => none
      | some (text, i', rest', cells', celli') =>
        some (text, i', f :: rest', cells', celli')

/-- Embedding of `face_pass` (io_polymesh.py): the internal pass first
resets every cell's `celli` to −1. -/
def face_pass (internal : Bool) (i : Nat) (ugfaces : List PMFace)
    (ugcells : List PMCell) : Option (String × Nat × List PMFace × List PMCell) :=
  let cells0 := if internal then ugcells.map (fun c => { c with celli := -1 }) else ugcells
  match face_pass_go internal ugfaces i cells0 0 with
  | none => none
  | some (text, i', faces', cells', _) => some (text, i', faces', cells')

/-- Embedding of `update_text_faces` (io_polymesh.py): internal face pass,
then boundary face pass, then the assembled `faces` file text. -/
def update_text_faces (ugfaces : List PMFace) (ugcells : List PMCell) :
    Option (String × Nat × List PMFace × List PMCell) :=
  match face_pass true 0 ugfaces ugcells with
  | none => none
  | some (text_internal, i1, fs1, cs1) =>
    match face_pass false i1 fs1 cs1 with
    | none => none
    | some (text_boundary, i2, fs2, cs2) =>
      some (of_file_header "faceList" "faces" ++ "\n" ++ pyStr i2 ++ "\n(\n"
              ++ text_internal ++ text_boundary ++ ")\n",
            i2, fs2, cs2)

/-- Embedding of `update_text_owner_neighbour` (io_polymesh.py), returning
the declared counts and integer entries alongside the two file texts. Note
the source's `internal_faces` is every non-deleted face (the name is the
source's own), so the declared owner count is `ninternal + nneighbour`
while only `ninternal` entries follow. -/
def update_text_owner_neighbour (ugfaces : List PMFace) :
    (Nat × List Int) × (Nat × List Int) × String × String :=
  let internal_faces := ugfaces.filter (fun f => !f.deleted)
  let ninternal := internal_faces.length
  let neighbour_faces := ugfaces.filter (fun f => !(f.neighbouri == -1) && !f.deleted)
  let nneighbour := neighbour_faces.length
  let ownerEntries := internal_faces.map (fun f => f.owneri)
  let neighbourEntries := neighbour_faces.map (fun f => f.neighbouri)
  let text_owner := of_file_header "labelList" "owner" ++ "\n"
    ++ pyStr (ninternal + nneighbour) ++ "\n(\n"
    ++ String.join (ownerEntries.map (fun z => pyStrInt z ++ "\n")) ++ ")\n"
  let text_neighbour := of_file_header "labelList" "neighbour" ++ "\n"
    ++ pyStr nneighbour ++ "\n(\n"
    ++ String.join (neighbourEntries.map (fun z => pyStrInt z ++ "\n")) ++ ")\n"
  ((ninternal + nneighbour, ownerEntries), (nneighbour, neighbourEntries),
   text_owner, text_neighbour)

/-- `bfaces = [x for x in ugfaces if x.mati==i]` (io_polymesh.py
`update_text_boundary`). -/
def boundary_bfaces (ugfaces : List PMFace) (i : Nat) : List PMFace :=
  ugfaces.filter (fun f => f.mati = (i : Int))

/-- The patch loop of `update_text_boundary` (io_polymesh.py): deleted
patches advance the slot counter but contribute nothing; each surviving
patch emits `nFaces = len(bfaces)` and `startFace = bfaces[0].facei`
(raising on an empty `bfaces`). Besides the accumulated text and patch
count, the per-patch `(slot, nFaces, startFace)` triples are returned. -/
def update_text_boundary_go (ugfaces : List PMFace) :
    List PMBoundary → Nat → Option (String × Nat × List (Nat × Nat × Int))
  | [], _ => some ("", 0, [])
  | b :: bs, i =>
    if b.deleted then update_text_boundary_go ugfaces bs (i + 1)
    else
      match boundary_bfaces ugfaces i with
      | [] => none
      | f0 :: frest =>
        match update_text_boundary_go ugfaces bs (i + 1) with
        | none => none
        | some (btext, nb, entries) =>
          let bfaces := f0 :: frest
          let text := "    " ++ b.patchname ++ "\n    \x7b\n"
            ++ "        type            " ++ b.typename ++ ";\n"
            ++ (if b.inGroups ≠ "" then
                  "        inGroups        " ++ b.inGroups ++ ";\n" else "")
            ++ "        nFaces          " ++ pyStr bfaces.length ++ ";\n"
            ++ "        startFace       " ++ pyStrInt f0.facei ++ ";\n"
            ++ "    \x7d\n"
          some (text ++ btext, nb + 1, (i, bfaces.length, f0.facei) :: entries)

/-- Embedding of `update_text_boundary` (io_polymesh.py). -/
def update_text_boundary (ugfaces : List PMFace) (ugboundaries : List PMBoundary) :
    Option (String × List (Nat × Nat × Int)) :=
  match update_text_boundary_go ugfaces ugboundaries 0 with
  | none => none
  | some (btext, nboundaries, entries) =>
    some (of_file_header "polyBoundaryMesh" "boundary" ++ "\n"
            ++ pyStr nboundaries ++ "\n(\n" ++ btext ++ ")\n",
          entries)

/-- Closed form of the face record `polymesh_get_faces` builds for face
index `i`. -/
def pmFaceRec (owner neighbour : List Nat) (face_verts : List (List Nat))
    (i : Nat) : PMFace :=
  { mkPMFace i (face_verts.getD i []) with
    owneri := (owner.getD i 0 : Int),
    neighbouri := if i < neighbour.length then (neighbour.getD i 0 : Int) else -1 }

/-- Closed form of cell `c`'s face list after `polymesh_get_faces` has
processed faces `0 … k-1`. -/
def cellFacesUpTo (owner neighbour : List Nat) (k c : Nat) : List Nat :=
  ((List.range k).map (fun i =>
    (if owner.getD i 0 = c then [i] else []) ++
    (if i < neighbour.length ∧ neighbour.getD i 0 = c then [i] else []))).flatten

/-- The cell registry of `polymesh_get_faces` as a function of each cell's
face list. -/
def cellsOf (mx : Nat) (F : Nat → List Nat) : List PMCell :=
  (List.range (mx + 1)).map (fun c => ⟨c, F c, -1, false⟩)

/-- Closed form of the whole `polymesh_get_faces` loop state after
processing faces `0 … k-1`. -/
def pmExpected (gen_edges : Bool) (owner neighbour : List Nat)
    (face_verts : List (List Nat)) (mx k : Nat) :
    List (Nat × Nat) × List (List Nat) × List PMCell × List PMFace :=
  ((if gen_edges then
      ((List.range (min k neighbour.length)).map
        (fun i => edgeLoop (face_verts.getD i []))).flatten
    else []),
   (face_verts.take k).drop neighbour.length,
   cellsOf mx (cellFacesUpTo owner neighbour k),
   (List.range k).map (pmFaceRec owner neighbour face_verts))

/-- Sequential export-index assignment: the shape `face_pass` leaves on the
subsequence of faces it processes. -/
def stampFacei : List PMFace → Nat → List PMFace
  | [], _ => []
  | f :: rest, i => { f with facei := (i : Int) } :: stampFacei rest (i + 1)

/-- The effect of one `face_pass` run on the face list: selected faces get
consecutive `facei` values starting at `i`, the rest are untouched. -/
def assignFacei (internal : Bool) : List PMFace → Nat → List PMFace
  | [], _ => []
  | f :: rest, i =>
    if facePassSelB internal f then
      { f with facei := (i : Int) } :: assignFacei internal rest (i + 1)
    else f :: assignFacei internal rest i

/-- Membership of `z` in a boundary entry's `[startFace, startFace+nFaces)`
range. -/
def inRange (e : Nat × Nat × Int) (z : Int) : Prop :=
  e.2.2 ≤ z ∧ z < e.2.2 + (e.2.1 : Int)

/-- The boundary partition invariant claimed by the specification: the
emitted ranges are pairwise disjoint and cover exactly the export indices
of the non-deleted boundary faces. -/
def boundaryPartitionOK (es : List (Nat × Nat × Int)) (faces : List PMFace) : Prop :=
  es.Pairwise (fun e1 e2 => ∀ z : Int, ¬(inRange e1 z ∧ inRange e2 z)) ∧
  ∀ z : Int, (∃ e ∈ es, inRange e z) ↔
    ∃ f ∈ faces, f.deleted = false ∧ f.neighbouri = -1 ∧ f.facei = z

/-- A state with one live boundary face and one deleted face that still
carries patch index 0. -/
def C4exFaces : List PMFace :=
  [⟨[0, 1, 2], 0, -1, 0, 7, false⟩, ⟨[0, 1, 2], 0, -1, 0, 5, true⟩]

def C4exPatches : List PMBoundary := [⟨"default", "patch", "", 0, 0, false⟩]

/-- `C4exFaces` after the two `face_pass` runs: the live boundary face got
export index 0; the deleted face kept its stale index 5. -/
def C4exFs2 : List PMFace :=
  [⟨[0, 1, 2], 0, -1, 0, 0, false⟩, ⟨[0, 1, 2], 0, -1, 0, 5, true⟩]

/-- A two-face export state exercising `update_text_owner_neighbour`: a
boundary face stored before an internal face. -/
def C5faces : List PMFace :=
  [⟨[0, 1, 2], 0, -1, 0, 7, false⟩, ⟨[0, 1, 3], 1, 2, -1, 9, false⟩]

def C5cells : List PMCell := [mkPMCell 0, mkPMCell 1, mkPMCell 2]

/-- The face list after the two `face_pass` runs on `C5faces`: the internal
face received export index 0, the boundary face export index 1. -/
def C5fs2 : List PMFace :=
  [⟨[0, 1, 2], 0, -1, 0, 1, false⟩, ⟨[0, 1, 3], 1, 2, -1, 0, false⟩]

/-- Per-cell resolution of non-polyhedron face templates to absolute vertex
index lists (io_vtu.py `add_cell_faces`: `real = [vilist[i] for i in
fisverts]`, with in-range indices). -/
def resolveFis (fis : List (List Nat)) (vilist : List Nat) : List (List Nat) :=
  fis.map (fun t => t.map (fun i => vilist.getD i 0))

/-- The Face records created by an `add_cell_faces` run in which every
template's key is fresh: one record per resolved template, owned by `ci`,
with no neighbour. -/
def newFaces (ci : Nat) (reals : List (List Nat)) : List UGFaceV :=
  reals.map (fun r => ⟨r, some ci, none⟩)

/-- The face-map entries appended by such a run: each resolved template's
canonical key bound to the next free face registry index. -/
def newEntries : List (List Nat) → Nat → List (String × Nat)
  | [], _ => []
  | r :: rest, n => (get_vert_string r, n) :: newEntries rest (n + 1)

/-! ## Helper lemmas -/

theorem digitChar_ne_comma (d : Nat) : digitChar d ≠ ',' := by
  unfold digitChar
  split <;> decide

theorem digitChar_injOn : ∀ a, a < 10 → ∀ b, b < 10 →
    digitChar a = digitChar b → a = b := by
  decide

theorem pyStrAux_eq_digits : ∀ fuel n, n < fuel →
    pyStrAux fuel n = ((Nat.digits 10 n).map digitChar).reverse := by
  intro fuel
  induction fuel with
  | zero => intro n h; omega
  | succ fuel ih =>
    intro n h
    by_cases h0 : n = 0
    · subst h0; simp [pyStrAux]
    · have hdiv : n / 10 < fuel := by
        have : n / 10 < n := Nat.div_lt_self (Nat.pos_of_ne_zero h0) (by norm_num)
        omega
      have hd := Nat.digits_def' (b := 10) (by norm_num) (Nat.pos_of_ne_zero h0)
      rw [pyStrAux, if_neg h0, ih _ hdiv, hd]
      simp

theorem pyStrChars_eq_digits {n : Nat} (h : n ≠ 0) :
    pyStrChars n = ((Nat.digits 10 n).map digitChar).reverse := by
  rw [pyStrChars, if_neg h]
  exact pyStrAux_eq_digits (n + 1) n (Nat.lt_succ_self n)

theorem pyStrChars_ne_nil (n : Nat) : pyStrChars n ≠ [] := by
  by_cases h : n = 0
  · subst h; simp [pyStrChars]
  · rw [pyStrChars_eq_digits h]
    simp [Nat.digits_ne_nil_iff_ne_zero.mpr h]

theorem comma_not_mem_pyStrChars (n : Nat) : ',' ∉ pyStrChars n := by
  by_cases h : n = 0
  · subst h; decide
  · rw [pyStrChars_eq_digits h]
    intro hmem
    rw [List.mem_reverse, List.mem_map] at hmem
    obtain ⟨d, _, hd⟩ := hmem
    exact digitChar_ne_comma d hd

theorem map_digitChar_inj : ∀ (xs ys : List Nat),
    (∀ x ∈ xs, x < 10) → (∀ y ∈ ys, y < 10) →
    xs.map digitChar = ys.map digitChar → xs = ys := by
  intro xs
  induction xs with
  | nil =>
    intro ys _ _ h
    cases ys with
    | nil => rfl
    | cons y t => simp at h
  | cons x xt ih =>
    intro ys hx hy h
    cases ys with
    | nil => simp at h
    | cons y yt =>
      simp only [List.map_cons, List.cons.injEq] at h
      have hxy : x = y :=
        digitChar_injOn x (hx x (by simp)) y (hy y (by simp)) h.1
      have ht : xt = yt :=
        ih yt (fun a ha => hx a (by simp [ha])) (fun a ha => hy a (by simp [ha])) h.2
      rw [hxy, ht]

theorem pyStrChars_ne_singleton_zero {m : Nat} (hm : m ≠ 0) :
    pyStrChars m ≠ ['0'] := by
  rw [pyStrChars_eq_digits hm]
  intro h
  have hne : Nat.digits 10 m ≠ [] :=
    (Nat.digits_ne_nil_iff_ne_zero (b := 10)).mpr hm
  have hds : (Nat.digits 10 m).map digitChar = ['0'] := by
    have := congrArg List.reverse h
    simpa using this
  rcases hd : Nat.digits 10 m with _ | ⟨d, ds⟩
  · exact hne hd
  · rw [hd] at hds
    simp only [List.map_cons, List.cons.injEq] at hds
    have hds2 : ds = [] := List.map_eq_nil_iff.mp hds.2
    have hdval : d < 10 := Nat.digits_lt_base (by norm_num) (by rw [hd]; simp)
    have hd0 : d = 0 := digitChar_injOn d hdval 0 (by norm_num) (by rw [hds.1]; rfl)
    apply hm
    have := Nat.ofDigits_digits 10 m
    rw [hd, hds2, hd0] at this
    simpa using this.symm

theorem pyStrChars_inj {n m : Nat} (h : pyStrChars n = pyStrChars m) : n = m := by
  by_cases hn : n = 0 <;> by_cases hm : m = 0
  · omega
  · exfalso
    subst hn
    exact pyStrChars_ne_singleton_zero hm (by rw [← h]; rfl)
  · exfalso
    subst hm
    exact pyStrChars_ne_singleton_zero hn (by rw [h]; rfl)
  · rw [pyStrChars_eq_digits hn, pyStrChars_eq_digits hm] at h
    have h' : (Nat.digits 10 n).map digitChar = (Nat.digits 10 m).map digitChar :=
      List.reverse_injective h
    have hdig : Nat.digits 10 n = Nat.digits 10 m :=
      map_digitChar_inj _ _
        (fun x hx => Nat.digits_lt_base (by norm_num) hx)
        (fun y hy => Nat.digits_lt_base (by norm_num) hy) h'
    calc n = Nat.ofDigits 10 (Nat.digits 10 n) := (Nat.ofDigits_digits 10 n).symm
    _ = Nat.ofDigits 10 (Nat.digits 10 m) := by rw [hdig]
    _ = m := Nat.ofDigits_digits 10 m

/-- Unique parsing of comma-terminated blocks: if two comma-free prefixes are
followed by a comma, equal concatenations force equal prefixes and tails. -/
theorem comma_block_cancel : ∀ (xs ys t1 t2 : List Char),
    ',' ∉ xs → ',' ∉ ys →
    xs ++ ',' :: t1 = ys ++ ',' :: t2 → xs = ys ∧ t1 = t2 := by
  intro xs
  induction xs with
  | nil =>
    intro ys t1 t2 _ hys h
    cases ys with
    | nil => simpa using h
    | cons y yt =>
      simp only [List.nil_append, List.cons_append, List.cons.injEq] at h
      exact absurd (h.1 ▸ List.mem_cons_self y yt) (by simp_all)
  | cons x xt ih =>
    intro ys t1 t2 hxs hys h
    cases ys with
    | nil =>
      simp only [List.cons_append, List.nil_append, List.cons.injEq] at h
      exact absurd (by simp [h.1]) hxs
    | cons y yt =>
      simp only [List.cons_append, List.cons.injEq] at h
      have := ih yt t1 t2 (fun hc => hxs (by simp [hc])) (fun hc => hys (by simp [hc])) h.2
      exact ⟨by rw [h.1, this.1], this.2⟩

theorem encodeChars_inj : ∀ (l1 l2 : List Nat),
    encodeChars l1 = encodeChars l2 → l1 = l2 := by
  intro l1
  induction l1 with
  | nil =>
    intro l2 h
    cases l2 with
    | nil => rfl
    | cons b t =>
      exfalso
      have hlen := congrArg List.length h
      simp [encodeChars] at hlen
      omega
  | cons a t1 ih =>
    intro l2 h
    cases l2 with
    | nil =>
      exfalso
      have hlen := congrArg List.length h
      simp [encodeChars] at hlen
    | cons b t2 =>
      simp only [encodeChars, List.map_cons, List.flatten_cons] at h
      rw [List.append_assoc, List.append_assoc] at h
      have h' : pyStrChars a ++ (',' :: encodeChars t1)
          = pyStrChars b ++ (',' :: encodeChars t2) := by
        simpa using h
      obtain ⟨h1, h2⟩ := comma_block_cancel _ _ _ _
        (comma_not_mem_pyStrChars a) (comma_not_mem_pyStrChars b) h'
      have hab : a = b := pyStrChars_inj h1
      have ht : t1 = t2 := ih t2 h2
      rw [hab, ht]

theorem string_foldl_data (l : List Nat) : ∀ (s : String),
    (l.foldl (fun s i => s ++ pyStr i ++ ",") s).data
      = s.data ++ encodeChars l := by
  induction l with
  | nil => intro s; simp [encodeChars]
  | cons a t ih =>
    intro s
    rw [List.foldl_cons, ih]
    simp [encodeChars, pyStr, String.data_append]

theorem get_vert_string_data (vilist : List Nat) :
    (get_vert_string vilist).data
      = encodeChars (List.insertionSort (· ≤ ·) vilist) := by
  rw [get_vert_string, string_foldl_data]
  rfl

theorem get_vert_string_eq_iff (l1 l2 : List Nat) :
    get_vert_string l1 = get_vert_string l2 ↔
      List.insertionSort (· ≤ ·) l1 = List.insertionSort (· ≤ ·) l2 := by
  constructor
  · intro h
    apply encodeChars_inj
    rw [← get_vert_string_data, ← get_vert_string_data, h]
  · intro h
    unfold get_vert_string
    rw [h]

theorem insertionSort_eq_of_perm {l1 l2 : List Nat} (h : l1.Perm l2) :
    List.insertionSort (· ≤ ·) l1 = List.insertionSort (· ≤ ·) l2 :=
  List.eq_of_perm_of_sorted (r := (· ≤ ·))
    ((List.perm_insertionSort _ l1).trans (h.trans (List.perm_insertionSort _ l2).symm))
    (List.sorted_insertionSort _ l1)
    (List.sorted_insertionSort _ l2)

/-! ## VTU import topology model

State-passing embedding of the shared mutable topology used by io_vtu.py.
Python objects referenced both from the global registries and from the face
map are modelled as registry indices. Python exceptions are modelled as an
error value returned *alongside* the state, since mutations performed before
a raise persist in the Python globals. -/

theorem types_offsets_fold_length (ugcells : List UGCellV) :
    ∀ (acc : List Nat × List Nat × Nat × Nat),
    (ugcells.foldl typesOffsetsStep acc).2.1.length
      = acc.2.1.length + (ugcells.filter (fun c => !c.deleted)).length := by
  induction ugcells with
  | nil => intro acc; simp
  | cons c t ih =>
    intro acc
    rw [List.foldl_cons]
    by_cases hc : c.deleted
    · rw [ih]
      simp [typesOffsetsStep, hc]
    · rw [ih]
      simp [typesOffsetsStep, hc]
      omega

end UG

/-- C9: the canonical-key function returns equal key strings on any two
vertex-index lists that are permutations of each other, and distinct key
strings on any two lists whose ascending sorted sequences differ. -/
theorem C9_canonical_key (l1 l2 : List Nat) :
    (l1.Perm l2 → UG.get_vert_string l1 = UG.get_vert_string l2) ∧
    (List.insertionSort (· ≤ ·) l1 ≠ List.insertionSort (· ≤ ·) l2 →
      UG.get_vert_string l1 ≠ UG.get_vert_string l2) := by
  constructor
  · intro hperm
    exact (UG.get_vert_string_eq_iff l1 l2).mpr (UG.insertionSort_eq_of_perm hperm)
  · intro hne h
    exact hne ((UG.get_vert_string_eq_iff l1 l2).mp h)

/-- Witness for C9: the two opposite-winding descriptions `[0,1,5,4]` and
`[4,5,1,0]` of one quad face get the same key, while `[0,1,5,4]` and
`[0,1,5,3]` get different keys. -/
theorem C9_canonical_key_witness :
    UG.get_vert_string [0, 1, 5, 4] = UG.get_vert_string [4, 5, 1, 0] ∧
    UG.get_vert_string [0, 1, 5, 4] ≠ UG.get_vert_string [0, 1, 5, 3] := by
  constructor
  · exact (C9_canonical_key [0, 1, 5, 4] [4, 5, 1, 0]).1 (by decide)
  · exact (C9_canonical_key [0, 1, 5, 4] [0, 1, 5, 3]).2 (by decide)

/-- C10: generating the VTU types/offsets block fails with an out-of-bounds
index error (`offsetlist[-1]` on an empty list, modelled as `none`) exactly
when no non-deleted cell exists; VTU export of this block succeeds only when
at least one non-deleted cell exists. -/
theorem C10_types_offsets_requires_live_cell (ugcells : List UG.UGCellV) :
    UG.generate_types_offsets_text ugcells = none ↔
      ∀ c ∈ ugcells, c.deleted = true := by
  have hlen := UG.types_offsets_fold_length ugcells ([], [], 0, 0)
  simp only [UG.generate_types_offsets_text]
  constructor
  · intro h c hc
    by_contra hcd
    have hmem : c ∈ ugcells.filter (fun c => !c.deleted) :=
      List.mem_filter.mpr ⟨hc, by simp [hcd]⟩
    have hne : (ugcells.foldl UG.typesOffsetsStep ([], [], 0, 0)).2.1.length ≠ 0 := by
      rw [hlen]
      have := List.length_pos.mpr (List.ne_nil_of_mem hmem)
      omega
    rcases hL : (ugcells.foldl UG.typesOffsetsStep ([], [], 0, 0)).2.1 with _ | ⟨a, t⟩
    · rw [hL] at hne; simp at hne
    · rw [hL] at h
      simp [List.getLast?] at h
  · intro h
    have hfilter : ugcells.filter (fun c => !c.deleted) = [] := by
      rw [List.filter_eq_nil_iff]
      intro c hc
      simp [h c hc]
    rcases hL : (ugcells.foldl UG.typesOffsetsStep ([], [], 0, 0)).2.1 with _ | ⟨a, t⟩
    · rfl
    · exfalso
      rw [hL, hfilter] at hlen
      simp at hlen

/-- Witness for C10 at a topology whose only cell is deleted. -/
theorem C10_types_offsets_requires_live_cell_witness :
    UG.generate_types_offsets_text [⟨0, [], [0, 1, 2], true⟩] = none :=
  (C10_types_offsets_requires_live_cell [⟨0, [], [0, 1, 2], true⟩]).mpr (by decide)

/-- C8 (amended): processing a cell whose type code is none of
{10, 12, 13, 14, 15, 16, 42} fails with an error carrying the offending
type tag (after the cell record has been registered); nothing in the import
pipeline catches it, so it propagates. -/
theorem C8_unsupported_cell_type (vtk_cell_type : Nat)
    (vilist polyfacelist : List Nat) (st : UG.VtuState)
    (h : vtk_cell_type ∉ ([10, 12, 13, 14, 15, 16, 42] : List Nat)) :
    UG.vtu_add_cell vtk_cell_type vilist polyfacelist st
      = (UG.addUGCell st, some (.unsupportedCellType vtk_cell_type)) := by
  have h10 : vtk_cell_type ≠ 10 := fun he => h (by simp [he])
  have h12 : vtk_cell_type ≠ 12 := fun he => h (by simp [he])
  have h13 : vtk_cell_type ≠ 13 := fun he => h (by simp [he])
  have h14 : vtk_cell_type ≠ 14 := fun he => h (by simp [he])
  have h15 : vtk_cell_type ≠ 15 := fun he => h (by simp [he])
  have h16 : vtk_cell_type ≠ 16 := fun he => h (by simp [he])
  have h42 : vtk_cell_type ≠ 42 := fun he => h (by simp [he])
  simp [UG.vtu_add_cell, h10, h12, h13, h14, h15, h16, h42]

/-- Witness for C8 at the unsupported VTK type tag 99. -/
theorem C8_unsupported_cell_type_witness :
    UG.vtu_add_cell 99 [0, 1, 2] [] UG.VtuState.empty
      = (UG.addUGCell UG.VtuState.empty, some (.unsupportedCellType 99)) :=
  C8_unsupported_cell_type 99 [0, 1, 2] [] UG.VtuState.empty (by decide)

/-- Counterexample for C8 as stated: on an import whose first cell has the
unsupported type tag 99 (and whose second cell is a valid tetrahedron), the
whole import aborts — the loop returns the per-cell error and the second
cell is never processed (only 1 of 2 trace entries exist), contradicting
"this per-cell failure does not abort the whole import". -/
theorem C8_abort_counterexample :
    (UG.vtu_datalists_to_ugdata [0, 1, 2, 0, 1, 2, 3] [3, 7] [99, 10] [] []).2.2
      = some (.unsupportedCellType 99) ∧
    ¬ (UG.vtu_datalists_to_ugdata [0, 1, 2, 0, 1, 2, 3] [3, 7] [99, 10] [] []).2.1.length
      = 2 := by
  decide

/-- C1: if a face template of a further cell resolves to a canonical key
already bound in the face map to a Face whose neighbour is already set,
`add_cell_faces` fails with `DuplicateFaceOwnership` and returns the state
unchanged — in particular the existing Face's neighbour is not relinked to
the new cell. (The offending template is the next one processed.) -/
theorem C1_duplicate_face_ownership (ci : Nat) (fisverts : List Nat)
    (rest : List (List Nat)) (vilist real : List Nat) (isPoly : Bool)
    (st : UG.VtuState) (fi : Nat) (f : UG.UGFaceV)
    (hres : (if isPoly then Except.ok fisverts
              else fisverts.mapM (UG.pyGetNat vilist)) = .ok real)
    (hlookup : st.facemap.lookup (UG.get_vert_string real) = some fi)
    (hface : st.ugfaces[fi]? = some f)
    (hnb : f.neighbour.isSome) :
    UG.add_cell_faces ci (fisverts :: rest) vilist isPoly st
      = (st, some .duplicateFaceOwnership) := by
  rw [UG.add_cell_faces, hres]
  simp [hlookup, UG.setNeighbour, hface, hnb]

/-- Witness for C1: two tetrahedra `[0,1,2,3]` and `[0,1,2,4]` share the
face `{0,1,2}` (owner cell 0, neighbour cell 1); a third cell whose first
template resolves to the same key fails with `DuplicateFaceOwnership`,
leaving the state unchanged. -/
theorem C1_duplicate_face_ownership_witness :
    UG.add_cell_faces 2 ([0, 2, 1] :: [[0, 1, 3], [1, 2, 3], [0, 3, 2]]) [0, 1, 2, 5] false
      (UG.vtu_add_cell 10 [0, 1, 2, 4] []
        (UG.vtu_add_cell 10 [0, 1, 2, 3] [] UG.VtuState.empty).1).1
      = ((UG.vtu_add_cell 10 [0, 1, 2, 4] []
          (UG.vtu_add_cell 10 [0, 1, 2, 3] [] UG.VtuState.empty).1).1,
         some .duplicateFaceOwnership) :=
  C1_duplicate_face_ownership 2 [0, 2, 1] [[0, 1, 3], [1, 2, 3], [0, 3, 2]]
    [0, 1, 2, 5] [0, 2, 1] false _ 0 ⟨[0, 2, 1], some 0, some 1⟩
    (by rfl) (by decide) (by decide) (by decide)

/-- C6 (amended): a polyhedron cell whose declared face count differs from
the decoded face records fails with `MalformedPolyhedron`; no Face record
is created and the face map is untouched, but the cell record registered at
the start of `vtu_add_cell` — before face decoding — remains in the shared
cell collection. -/
theorem C6_malformed_polyhedron (vilist polyfacelist : List Nat)
    (st : UG.VtuState)
    (herr : UG.get_polyhedron_fis polyfacelist
      = .error (.malformedPolyhedron polyfacelist)) :
    UG.vtu_add_cell 42 vilist polyfacelist st
      = (UG.addUGCell st, some (.malformedPolyhedron polyfacelist)) := by
  simp [UG.vtu_add_cell, herr]

/-- Witness for C6: face data declaring 2 faces but decoding 1. -/
theorem C6_malformed_polyhedron_witness :
    UG.vtu_add_cell 42 [0, 1, 2] [2, 3, 0, 1, 2] UG.VtuState.empty
      = (UG.addUGCell UG.VtuState.empty, some (.malformedPolyhedron [2, 3, 0, 1, 2])) :=
  C6_malformed_polyhedron [0, 1, 2] [2, 3, 0, 1, 2] UG.VtuState.empty (by rfl)

/-- Counterexample for C6 as stated: on the malformed polyhedron face list
`[2, 3, 0, 1, 2]` (declares 2 faces, decodes 1) the import fails with
`MalformedPolyhedron`, but the cell registry is *not* left unmutated: the
cell record created before face decoding remains. -/
theorem C6_counterexample :
    (UG.vtu_add_cell 42 [0, 1, 2] [2, 3, 0, 1, 2] UG.VtuState.empty).2
      = some (.malformedPolyhedron [2, 3, 0, 1, 2]) ∧
    ¬ (UG.vtu_add_cell 42 [0, 1, 2] [2, 3, 0, 1, 2] UG.VtuState.empty).1.ugcells
      = [] := by
  decide

/-- Import-loop unfolding: missing `offsets[ci]` aborts with an index
error. -/
theorem vtuLoopAux_cons_none {conn offsets celltypes cellfaces cfo : List Nat}
    {ci : Nat} {rest : List Nat} {conn_index oi : Nat} {st : UG.VtuState}
    (hoff : offsets[ci]? = none) :
    UG.vtuLoopAux conn offsets celltypes cellfaces cfo (ci :: rest) conn_index oi st
      = (st, [], some .indexError) := by
  simp [UG.vtuLoopAux, hoff]

/-- Import-loop unfolding: polyhedron cell with missing
`cellfaceoffsets[ci]` aborts with an index error. -/
theorem vtuLoopAux_cons_42_nocfo {conn offsets celltypes cellfaces cfo : List Nat}
    {ci : Nat} {rest : List Nat} {conn_index oi conn_end : Nat} {st : UG.VtuState}
    (hoff : offsets[ci]? = some conn_end)
    (hty : celltypes.getD ci 0 = 42)
    (hcfo : cfo[ci]? = none) :
    UG.vtuLoopAux conn offsets celltypes cellfaces cfo (ci :: rest) conn_index oi st
      = (st, [], some .indexError) := by
  simp only [UG.vtuLoopAux, hoff, hty, hcfo]
  simp

/-- Import-loop unfolding: polyhedron cell whose `vtu_add_cell` fails. -/
theorem vtuLoopAux_cons_42_err {conn offsets celltypes cellfaces cfo : List Nat}
    {ci : Nat} {rest : List Nat} {conn_index oi conn_end co : Nat}
    {st st' : UG.VtuState} {e : UG.VtuErr}
    (hoff : offsets[ci]? = some conn_end)
    (hty : celltypes.getD ci 0 = 42)
    (hcfo : cfo[ci]? = some co)
    (hstep : UG.vtu_add_cell 42 (UG.pySlice conn conn_index conn_end)
        (UG.pySlice cellfaces oi (co + 1)) st = (st', some e)) :
    UG.vtuLoopAux conn offsets celltypes cellfaces cfo (ci :: rest) conn_index oi st
      = (st', [UG.pySlice cellfaces oi (co + 1)], some e) := by
  simp only [UG.vtuLoopAux, hoff, hty, hcfo, hstep]
  simp

/-- Import-loop unfolding: polyhedron cell whose `vtu_add_cell` succeeds;
the loop continues with `conn_index := conn_end` and
`offset_index := cellfaceoffsets[ci]`. -/
theorem vtuLoopAux_cons_42_ok {conn offsets celltypes cellfaces cfo : List Nat}
    {ci : Nat} {rest : List Nat} {conn_index oi conn_end co : Nat}
    {st st' : UG.VtuState}
    (hoff : offsets[ci]? = some conn_end)
    (hty : celltypes.getD ci 0 = 42)
    (hcfo : cfo[ci]? = some co)
    (hstep : UG.vtu_add_cell 42 (UG.pySlice conn conn_index conn_end)
        (UG.pySlice cellfaces oi (co + 1)) st = (st', none)) :
    UG.vtuLoopAux conn offsets celltypes cellfaces cfo (ci :: rest) conn_index oi st
      = ((UG.vtuLoopAux conn offsets celltypes cellfaces cfo rest conn_end co st').1,
         UG.pySlice cellfaces oi (co + 1)
           :: (UG.vtuLoopAux conn offsets celltypes cellfaces cfo rest conn_end co st').2.1,
         (UG.vtuLoopAux conn offsets celltypes cellfaces cfo rest conn_end co st').2.2) := by
  simp only [UG.vtuLoopAux, hoff, hty, hcfo, hstep]
  simp

/-- Import-loop unfolding: non-polyhedron cell whose `vtu_add_cell`
fails. -/
theorem vtuLoopAux_cons_other_err {conn offsets celltypes cellfaces cfo : List Nat}
    {ci : Nat} {rest : List Nat} {conn_index oi conn_end : Nat}
    {st st' : UG.VtuState} {e : UG.VtuErr}
    (hoff : offsets[ci]? = some conn_end)
    (hty : ¬ celltypes.getD ci 0 = 42)
    (hstep : UG.vtu_add_cell (celltypes.getD ci 0)
        (UG.pySlice conn conn_index conn_end) [] st = (st', some e)) :
    UG.vtuLoopAux conn offsets celltypes cellfaces cfo (ci :: rest) conn_index oi st
      = (st', [[]], some e) := by
  simp only [UG.vtuLoopAux, hoff, hty, hstep]
  simp

/-- Import-loop unfolding: non-polyhedron cell whose `vtu_add_cell`
succeeds; `offset_index` is unchanged. -/
theorem vtuLoopAux_cons_other_ok {conn offsets celltypes cellfaces cfo : List Nat}
    {ci : Nat} {rest : List Nat} {conn_index oi conn_end : Nat}
    {st st' : UG.VtuState}
    (hoff : offsets[ci]? = some conn_end)
    (hty : ¬ celltypes.getD ci 0 = 42)
    (hstep : UG.vtu_add_cell (celltypes.getD ci 0)
        (UG.pySlice conn conn_index conn_end) [] st = (st', none)) :
    UG.vtuLoopAux conn offsets celltypes cellfaces cfo (ci :: rest) conn_index oi st
      = ((UG.vtuLoopAux conn offsets celltypes cellfaces cfo rest conn_end oi st').1,
         ([] : List Nat)
           :: (UG.vtuLoopAux conn offsets celltypes cellfaces cfo rest conn_end oi st').2.1,
         (UG.vtuLoopAux conn offsets celltypes cellfaces cfo rest conn_end oi st').2.2) := by
  simp only [UG.vtuLoopAux, hoff, hty, hstep]
  simp

/-- Loop invariant behind C7: running the import loop over cell indices
`s, s+1, …, s+n-1` with `offset_index = prevOff s`, every processed
polyhedron cell `s+k` receives the slice
`cellfaces[prevOff (s+k) : cellfaceoffsets[s+k] + 1]`. -/
theorem vtuLoopAux_slice (conn offsets celltypes cellfaces cfo : List Nat) :
    ∀ (n s conn_index : Nat) (st : UG.VtuState) (k : Nat),
    k < (UG.vtuLoopAux conn offsets celltypes cellfaces cfo
        (List.range' s n) conn_index (UG.prevOff celltypes cfo s) st).2.1.length →
    celltypes.getD (s + k) 0 = 42 →
    (UG.vtuLoopAux conn offsets celltypes cellfaces cfo (List.range' s n)
        conn_index (UG.prevOff celltypes cfo s) st).2.1.getD k []
      = UG.pySlice cellfaces (UG.prevOff celltypes cfo (s + k))
          (cfo.getD (s + k) 0 + 1) := by
  intro n
  induction n with
  | zero =>
    intro s conn_index st k hk h42
    simp [UG.vtuLoopAux] at hk
  | succ n ih =>
    intro s conn_index st k hk h42
    rw [show List.range' s (n + 1) = s :: List.range' (s + 1) n from rfl] at hk ⊢
    rcases hoff : offsets[s]? with _ | conn_end
    · rw [vtuLoopAux_cons_none hoff] at hk
      simp at hk
    · by_cases hty : celltypes.getD s 0 = 42
      · rcases hcfo : cfo[s]? with _ | co
        · rw [vtuLoopAux_cons_42_nocfo hoff hty hcfo] at hk
          simp at hk
        · have hco : cfo.getD s 0 = co := by
            rw [List.getD_eq_getElem?_getD, hcfo]; rfl
          have hprev : UG.prevOff celltypes cfo (s + 1) = co := by
            rw [UG.prevOff, if_pos hty, hco]
          rcases hstep : UG.vtu_add_cell 42
              (UG.pySlice conn conn_index conn_end)
              (UG.pySlice cellfaces (UG.prevOff celltypes cfo s) (co + 1)) st
            with ⟨st', err⟩
          cases err with
          | some e =>
            rw [vtuLoopAux_cons_42_err hoff hty hcfo hstep] at hk ⊢
            simp only [List.length_cons, List.length_nil] at hk
            have hk0 : k = 0 := by omega
            subst hk0
            simp only [Nat.add_zero] at h42 ⊢
            rw [hco]
            rfl
          | none =>
            rw [vtuLoopAux_cons_42_ok hoff hty hcfo hstep] at hk ⊢
            cases k with
            | zero =>
              simp only [Nat.add_zero] at h42 ⊢
              rw [hco]
              rfl
            | succ k =>
              simp only [List.length_cons] at hk
              have hk' : k < (UG.vtuLoopAux conn offsets celltypes cellfaces cfo
                  (List.range' (s + 1) n) conn_end co st').2.1.length := by
                omega
              have h42' : celltypes.getD ((s + 1) + k) 0 = 42 := by
                rw [show (s + 1) + k = s + (k + 1) from by omega]; exact h42
              have hrec := ih (s + 1) conn_end st' k (by rw [hprev]; exact hk') h42'
              rw [hprev] at hrec
              rw [show s + (k + 1) = (s + 1) + k from by omega]
              simp only [List.getD_cons_succ]
              exact hrec
      · rcases hstep : UG.vtu_add_cell (celltypes.getD s 0)
            (UG.pySlice conn conn_index conn_end) [] st
          with ⟨st', err⟩
        cases err with
        | some e =>
          rw [vtuLoopAux_cons_other_err hoff hty hstep] at hk
          simp only [List.length_cons, List.length_nil] at hk
          have hk0 : k = 0 := by omega
          subst hk0
          simp only [Nat.add_zero] at h42
          exact absurd h42 hty
        | none =>
          have hprev : UG.prevOff celltypes cfo (s + 1) = UG.prevOff celltypes cfo s := by
            rw [UG.prevOff, if_neg hty]
          rw [vtuLoopAux_cons_other_ok hoff hty hstep] at hk ⊢
          cases k with
          | zero =>
            simp only [Nat.add_zero] at h42
            exact absurd h42 hty
          | succ k =>
            simp only [List.length_cons] at hk
            have hk' : k < (UG.vtuLoopAux conn offsets celltypes cellfaces cfo
                (List.range' (s + 1) n) conn_end (UG.prevOff celltypes cfo s) st').2.1.length := by
              omega
            have h42' : celltypes.getD ((s + 1) + k) 0 = 42 := by
              rw [show (s + 1) + k = s + (k + 1) from by omega]; exact h42
            have hrec := ih (s + 1) conn_end st' k (by rw [hprev]; exact hk') h42'
            rw [hprev] at hrec
            rw [show s + (k + 1) = (s + 1) + k from by omega]
            simp only [List.getD_cons_succ]
            exact hrec

/-- C7 (amended): in `vtu_datalists_to_ugdata`, the `faces`-block slice
decoded for a polyhedron cell `ci` starts at the loop's running
`offset_index` — 0 for the first polyhedron cell and `cellfaceoffsets` of
the most recently processed polyhedron cell thereafter — and ends at
`cellfaceoffsets[ci] + 1`; it does not start at `cellfaceoffsets[ci]`. -/
theorem C7_polyhedron_slice_start (connectivities offsets celltypes cellfaces
    cellfaceoffsets : List Nat) (ci : Nat)
    (hci : ci < (UG.vtu_datalists_to_ugdata connectivities offsets celltypes
        cellfaces cellfaceoffsets).2.1.length)
    (h42 : celltypes.getD ci 0 = 42) :
    (UG.vtu_datalists_to_ugdata connectivities offsets celltypes cellfaces
        cellfaceoffsets).2.1.getD ci []
      = UG.pySlice cellfaces (UG.prevOff celltypes cellfaceoffsets ci)
          (cellfaceoffsets.getD ci 0 + 1) := by
  have h := vtuLoopAux_slice connectivities offsets celltypes cellfaces
    cellfaceoffsets celltypes.length 0 0 UG.VtuState.empty ci
  rw [← List.range_eq_range'] at h
  have h0 : UG.prevOff celltypes cellfaceoffsets 0 = 0 := rfl
  rw [h0] at h
  simp only [zero_add] at h
  exact h hci h42

/-- Witness for C7 at a single tetrahedron encoded as a VTU polyhedron
(`faces` block of 17 entries, `faceoffsets = [17]`): the decoded slice is
`cellfaces[0 : 18]`. -/
theorem C7_polyhedron_slice_start_witness :
    (UG.vtu_datalists_to_ugdata [0, 1, 2, 3] [4] [42]
        [4, 3, 0, 2, 1, 3, 0, 1, 3, 3, 1, 2, 3, 3, 0, 3, 2] [17]).2.1.getD 0 []
      = UG.pySlice [4, 3, 0, 2, 1, 3, 0, 1, 3, 3, 1, 2, 3, 3, 0, 3, 2]
          (UG.prevOff [42] [17] 0) (([17] : List Nat).getD 0 0 + 1) :=
  C7_polyhedron_slice_start [0, 1, 2, 3] [4] [42]
    [4, 3, 0, 2, 1, 3, 0, 1, 3, 3, 1, 2, 3, 3, 0, 3, 2] [17] 0
    (by decide) (by decide)

/-- Counterexample for C7 as stated: on the same single-polyhedron import
(which succeeds), the `faces` data actually decoded for cell 0 is *not* any
slice starting at `cellfaceoffsets[0] = 17` — the 17-entry `faces` block
has nothing at position 17, while the decoded slice is the whole block
(`cellfaces[0 : 18]`). -/
theorem C7_counterexample :
    (UG.vtu_datalists_to_ugdata [0, 1, 2, 3] [4] [42]
        [4, 3, 0, 2, 1, 3, 0, 1, 3, 3, 1, 2, 3, 3, 0, 3, 2] [17]).2.2 = none ∧
    ¬ ∃ k, (UG.vtu_datalists_to_ugdata [0, 1, 2, 3] [4] [42]
        [4, 3, 0, 2, 1, 3, 0, 1, 3, 3, 1, 2, 3, 3, 0, 3, 2] [17]).2.1.getD 0 []
      = (([4, 3, 0, 2, 1, 3, 0, 1, 3, 3, 1, 2, 3, 3, 0, 3, 2] : List Nat).drop 17).take k := by
  constructor
  · rfl
  · rintro ⟨k, hk⟩
    rw [show (([4, 3, 0, 2, 1, 3, 0, 1, 3, 3, 1, 2, 3, 3, 0, 3, 2] : List Nat).drop 17)
        = [] from rfl, List.take_nil] at hk
    exact absurd hk (by decide)

/-- C5 (code bug, shown at the failing input `C5faces`): after the
two-pass `update_text_faces` run, the face given export index 0 by the
faces block is the internal face (owner 1), yet `update_text_owner_neighbour`
emits its owner entries in storage order — `[0, 1]`, starting with the
boundary face's owner — and declares `3` entries (`ninternal + nneighbour`,
where the source's `internal_faces` is actually every non-deleted face)
while only `2` integer entries follow. -/
theorem C5_owner_neighbour_failing_input :
    (UG.update_text_faces UG.C5faces UG.C5cells).map (fun r => r.2.2.1)
      = some UG.C5fs2 ∧
    UG.C5fs2.find? (fun f => f.facei == 0)
      = some ⟨[0, 1, 3], 1, 2, -1, 0, false⟩ ∧
    (UG.update_text_owner_neighbour UG.C5fs2).1 = (3, [0, 1]) ∧
    ¬ (UG.update_text_owner_neighbour UG.C5fs2).1.1
      = (UG.update_text_owner_neighbour UG.C5fs2).1.2.length := by
  refine ⟨by decide, by decide, by decide, by decide⟩

/-- The PolyMesh face loop splits over an append of index lists. -/
theorem polymesh_faces_go_append (gen_edges : Bool) (owner neighbour : List Nat)
    (face_verts : List (List Nat)) :
    ∀ (l1 l2 : List Nat) acc,
    UG.polymesh_faces_go gen_edges owner neighbour face_verts (l1 ++ l2) acc
      = match UG.polymesh_faces_go gen_edges owner neighbour face_verts l1 acc with
        | .error e => .error e
        | .ok acc' => UG.polymesh_faces_go gen_edges owner neighbour face_verts l2 acc' := by
  intro l1
  induction l1 with
  | nil => intro l2 acc; rfl
  | cons i t ih =>
    intro l2 acc
    rw [List.cons_append]
    cases hstep : UG.polymesh_face_step gen_edges owner neighbour face_verts i acc with
    | error e => simp [UG.polymesh_faces_go, hstep]
    | ok acc' => simp [UG.polymesh_faces_go, hstep, ih]

/-- Appending a face index to one cell of a `cellsOf` registry. -/
theorem appendFaceTo_cellsOf (mx : Nat) (F : Nat → List Nat) (c i : Nat)
    (hc : c < mx + 1) :
    UG.appendFaceTo (UG.cellsOf mx F) c i
      = UG.cellsOf mx (fun j => if j = c then F j ++ [i] else F j) := by
  have hcell : (UG.cellsOf mx F)[c]? = some ⟨c, F c, -1, false⟩ := by
    simp [UG.cellsOf, List.getElem?_range, hc]
  rw [UG.appendFaceTo, hcell]
  apply List.ext_getElem?
  intro j
  by_cases hj : j = c
  · subst hj
    simp [List.getElem?_set, UG.cellsOf, List.getElem?_range, hc]
  · have hcj : ¬ c = j := fun h => hj h.symm
    simp only [List.getElem?_set, if_neg hcj, UG.cellsOf, List.getElem?_map]
    rcases Nat.lt_or_ge j (mx + 1) with h | h
    · rw [List.getElem?_range h]
      simp [hj]
    · rw [List.getElem?_eq_none (by simpa using h)]
      rfl

theorem mem_ite_singleton {P : Prop} [Decidable P] {i j : Nat} :
    (j ∈ (if P then [i] else [])) ↔ P ∧ j = i := by
  split
  · next h => simp [h]
  · next h => simp [h]

theorem mem_cellFacesUpTo (owner neighbour : List Nat) (n c j : Nat) :
    j ∈ UG.cellFacesUpTo owner neighbour n c ↔
      j < n ∧ (owner.getD j 0 = c ∨ (j < neighbour.length ∧ neighbour.getD j 0 = c)) := by
  simp only [UG.cellFacesUpTo, List.mem_flatten, List.mem_map, List.mem_range]
  constructor
  · rintro ⟨l, ⟨i, hi, rfl⟩, hmem⟩
    rw [List.mem_append, mem_ite_singleton, mem_ite_singleton] at hmem
    rcases hmem with ⟨hp, rfl⟩ | ⟨hq, rfl⟩
    · exact ⟨hi, Or.inl hp⟩
    · exact ⟨hi, Or.inr hq⟩
  · rintro ⟨hj, hp | hq⟩
    · refine ⟨_, ⟨j, hj, rfl⟩, ?_⟩
      rw [List.mem_append, mem_ite_singleton, mem_ite_singleton]
      exact Or.inl ⟨hp, rfl⟩
    · refine ⟨_, ⟨j, hj, rfl⟩, ?_⟩
      rw [List.mem_append, mem_ite_singleton, mem_ite_singleton]
      exact Or.inr ⟨hq, rfl⟩

theorem pmExpected_zero (gen_edges : Bool) (owner neighbour : List Nat)
    (face_verts : List (List Nat)) (mx : Nat) :
    UG.pmExpected gen_edges owner neighbour face_verts mx 0
      = ([], [], (List.range (mx + 1)).map UG.mkPMCell, []) := by
  simp [UG.pmExpected, UG.cellsOf, UG.cellFacesUpTo, UG.mkPMCell]

/-- One `polymesh_get_faces` iteration maps the closed-form state for `k`
to the closed-form state for `k + 1`. -/
theorem polymesh_face_step_expected (gen_edges : Bool) (owner neighbour : List Nat)
    (face_verts : List (List Nat)) (mx k : Nat)
    (hmax : ∀ a ∈ owner, a ≤ mx)
    (hk : k < face_verts.length)
    (hko : k < owner.length)
    (hknb : ∀ nb, neighbour[k]? = some nb → nb < mx + 1) :
    UG.polymesh_face_step gen_edges owner neighbour face_verts k
        (UG.pmExpected gen_edges owner neighbour face_verts mx k)
      = .ok (UG.pmExpected gen_edges owner neighbour face_verts mx (k + 1)) := by
  have how : owner[k]? = some (owner.getD k 0) := by
    rw [List.getD_eq_getElem?_getD, List.getElem?_eq_getElem hko]
    rfl
  have howlt : owner.getD k 0 < mx + 1 := by
    have hmem : owner.getD k 0 ∈ owner := by
      rw [List.getD_eq_getElem?_getD, List.getElem?_eq_getElem hko]
      exact List.getElem_mem hko
    exact Nat.lt_succ_of_le (hmax _ hmem)
  have htake : face_verts.take (k + 1)
      = face_verts.take k ++ [face_verts.getD k []] := by
    rw [List.take_succ, List.getElem?_eq_getElem hk]
    rw [List.getD_eq_getElem?_getD, List.getElem?_eq_getElem hk]
    rfl
  cases hnbk : neighbour[k]? with
  | none =>
    have hklen : neighbour.length ≤ k := by
      by_contra hlt
      push_neg at hlt
      rw [List.getElem?_eq_getElem hlt] at hnbk
      exact absurd hnbk (by simp)
    simp only [UG.polymesh_face_step, UG.pmExpected, how, hnbk]
    rw [appendFaceTo_cellsOf _ _ _ _ howlt]
    simp only [UG.pmExpected, Prod.mk.injEq, Except.ok.injEq]
    refine ⟨?_, ?_, ?_, ?_⟩
    · rw [Nat.min_eq_right hklen, Nat.min_eq_right (Nat.le_succ_of_le hklen)]
    · rw [htake, List.drop_append_eq_append_drop]
      have hz : neighbour.length - (face_verts.take k).length = 0 := by
        rw [List.length_take]
        omega
      rw [hz]
      rfl
    · show UG.cellsOf mx _ = UG.cellsOf mx _
      apply congrArg
      funext j
      simp only [UG.cellFacesUpTo, List.range_succ, List.map_append,
        List.flatten_append, List.map_cons, List.map_nil, List.flatten_cons,
        List.flatten_nil, List.append_nil]
      have h2 : (if k < neighbour.length ∧ neighbour.getD k 0 = j then [k]
          else ([] : List Nat)) = [] := by
        rw [if_neg]
        rintro ⟨hlt, _⟩
        omega
      rw [h2, List.append_nil]
      by_cases hj : j = owner.getD k 0
      · rw [if_pos hj, if_pos hj.symm]
      · rw [if_neg hj, if_neg (fun h => hj h.symm), List.append_nil]
    · rw [List.range_succ, List.map_append]
      apply congrArg
      simp only [List.map_cons, List.map_nil]
      have : UG.pmFaceRec owner neighbour face_verts k
          = { UG.mkPMFace k (face_verts.getD k []) with
              owneri := (owner.getD k 0 : Int) } := by
        rw [UG.pmFaceRec, if_neg (by omega)]
        rfl
      rw [this]
  | some nb =>
    have hkn : k < neighbour.length := by
      by_contra hge
      push_neg at hge
      rw [List.getElem?_eq_none hge] at hnbk
      exact absurd hnbk (by simp)
    have hnbd : neighbour.getD k 0 = nb := by
      rw [List.getD_eq_getElem?_getD, hnbk]
      rfl
    have hnblt : nb < mx + 1 := hknb nb hnbk
    simp only [UG.polymesh_face_step, UG.pmExpected, how, hnbk]
    rw [appendFaceTo_cellsOf _ _ _ _ howlt]
    have hlen : (UG.cellsOf mx (fun j =>
        if j = owner.getD k 0 then UG.cellFacesUpTo owner neighbour k j ++ [k]
        else UG.cellFacesUpTo owner neighbour k j)).length = mx + 1 := by
      simp [UG.cellsOf]
    rw [if_pos (by rw [hlen]; exact hnblt)]
    rw [appendFaceTo_cellsOf _ _ _ _ hnblt]
    simp only [UG.pmExpected, Prod.mk.injEq, Except.ok.injEq]
    refine ⟨?_, ?_, ?_, ?_⟩
    · cases gen_edges with
      | false => rfl
      | true =>
        simp only [if_true]
        rw [Nat.min_eq_left (Nat.le_of_lt hkn), Nat.min_eq_left hkn]
        simp [List.range_succ]
    · have h1 : List.drop neighbour.length (face_verts.take k) = [] :=
        List.drop_eq_nil_of_le (by rw [List.length_take]; omega)
      have h2 : List.drop neighbour.length (face_verts.take (k + 1)) = [] :=
        List.drop_eq_nil_of_le (by rw [List.length_take]; omega)
      rw [h1, h2]
    · show UG.cellsOf mx _ = UG.cellsOf mx _
      apply congrArg
      funext j
      simp only [UG.cellFacesUpTo, List.range_succ, List.map_append,
        List.flatten_append, List.map_cons, List.map_nil, List.flatten_cons,
        List.flatten_nil, List.append_nil]
      by_cases h1 : j = owner.getD k 0 <;> by_cases h2 : j = nb
      · rw [if_pos h2, if_pos h1, if_pos h1.symm, if_pos ⟨hkn, by rw [hnbd, h2]⟩,
          List.append_assoc]
      · rw [if_neg h2, if_pos h1, if_pos h1.symm,
          if_neg (fun h => h2 (by rw [← hnbd, h.2])), List.append_nil]
      · rw [if_pos h2, if_neg h1, if_neg (fun h => h1 h.symm),
          if_pos ⟨hkn, by rw [hnbd, h2]⟩, List.nil_append]
      · rw [if_neg h2, if_neg h1, if_neg (fun h => h1 h.symm),
          if_neg (fun h => h2 (by rw [← hnbd, h.2])), List.append_nil,
          List.append_nil]
    · rw [List.range_succ, List.map_append]
      apply congrArg
      simp only [List.map_cons, List.map_nil]
      have : UG.pmFaceRec owner neighbour face_verts k
          = { UG.mkPMFace k (face_verts.getD k []) with
              owneri := (owner.getD k 0 : Int),
              neighbouri := (nb : Int) } := by
        rw [UG.pmFaceRec, if_pos hkn, hnbd]
      rw [this]

theorem map_range_getD {α : Type} (f : Nat → α) (n i : Nat) (hi : i < n) (d : α) :
    ((List.range n).map f).getD i d = f i := by
  rw [List.getD_eq_getElem?_getD]
  simp [List.getElem?_range hi]

theorem cellsOf_getD (mx : Nat) (F : Nat → List Nat) (c : Nat) (hc : c < mx + 1)
    (d : UG.PMCell) :
    (UG.cellsOf mx F).getD c d = ⟨c, F c, -1, false⟩ :=
  map_range_getD _ _ _ hc _

/-- The whole `polymesh_get_faces` loop reaches the closed-form state. -/
theorem polymesh_faces_go_expected (gen_edges : Bool) (owner neighbour : List Nat)
    (face_verts : List (List Nat)) (mx : Nat)
    (hmax : ∀ a ∈ owner, a ≤ mx) :
    ∀ k, k ≤ face_verts.length →
    (∀ i, i < k → i < owner.length) →
    (∀ i, i < k → ∀ nb, neighbour[i]? = some nb → nb < mx + 1) →
    UG.polymesh_faces_go gen_edges owner neighbour face_verts (List.range k)
        ([], [], (List.range (mx + 1)).map UG.mkPMCell, [])
      = .ok (UG.pmExpected gen_edges owner neighbour face_verts mx k) := by
  intro k
  induction k with
  | zero =>
    intro _ _ _
    rw [pmExpected_zero]
    rfl
  | succ k ih =>
    intro hle hown hnb
    rw [List.range_succ, polymesh_faces_go_append]
    rw [ih (by omega) (fun i hi => hown i (by omega)) (fun i hi => hnb i (by omega))]
    have hstep := polymesh_face_step_expected gen_edges owner neighbour face_verts
      mx k hmax (by omega) (hown k (by omega)) (fun nb h => hnb k (by omega) nb h)
    simp only [UG.polymesh_faces_go, hstep]

/-- C3: for a PolyMesh import with a non-empty owner list (maximum `mx`),
enough owner entries and in-range neighbour entries, `polymesh_get_faces`
creates `mx + 1 = max(owner) + 1` cells; face `i` has owner `owner[i]` and
is listed in that cell's face list; face `i` has a neighbour exactly when
`i < len(neighbour)` (in which case the neighbour is `neighbour[i]` and the
face is also listed in that cell's face list); and exactly the faces with
`i ≥ len(neighbour)` are surfaced as drawable boundary polygons. -/
theorem C3_polymesh_import (gen_edges : Bool) (owner neighbour : List Nat)
    (face_verts : List (List Nat)) (mx : Nat)
    (hmx : owner.max? = some mx)
    (hown : face_verts.length ≤ owner.length)
    (hnb : ∀ i, i < face_verts.length → ∀ nb, neighbour[i]? = some nb → nb ≤ mx) :
    ∃ edges polys cells faces,
      UG.polymesh_get_faces gen_edges owner neighbour face_verts
        = .ok (edges, polys, cells, faces) ∧
      cells.length = mx + 1 ∧
      faces.length = face_verts.length ∧
      polys = face_verts.drop neighbour.length ∧
      ∀ i, i < face_verts.length →
        (faces.getD i (UG.mkPMFace 0 [])).owneri = (owner.getD i 0 : Int) ∧
        i ∈ (cells.getD (owner.getD i 0) (UG.mkPMCell 0)).faces ∧
        ((faces.getD i (UG.mkPMFace 0 [])).neighbouri ≠ -1 ↔ i < neighbour.length) ∧
        (∀ nb, neighbour[i]? = some nb →
          (faces.getD i (UG.mkPMFace 0 [])).neighbouri = (nb : Int) ∧
          i ∈ (cells.getD nb (UG.mkPMCell 0)).faces) := by
  have hmax : ∀ a ∈ owner, a ≤ mx := (List.max?_eq_some_iff'.mp hmx).2
  have hloop := polymesh_faces_go_expected gen_edges owner neighbour face_verts
    mx hmax face_verts.length le_rfl
    (fun i hi => Nat.lt_of_lt_of_le hi hown)
    (fun i hi nb h => Nat.lt_succ_of_le (hnb i hi nb h))
  have hget : UG.polymesh_get_faces gen_edges owner neighbour face_verts
      = .ok (UG.pmExpected gen_edges owner neighbour face_verts mx face_verts.length) := by
    simp only [UG.polymesh_get_faces, hmx]
    exact hloop
  refine ⟨_, _, _, _, hget, ?_, ?_, ?_, ?_⟩
  · simp [UG.pmExpected, UG.cellsOf]
  · simp [UG.pmExpected]
  · simp [UG.pmExpected, List.take_length]
  · intro i hi
    have hio : i < owner.length := Nat.lt_of_lt_of_le hi hown
    have howm : owner.getD i 0 ∈ owner := by
      rw [List.getD_eq_getElem?_getD, List.getElem?_eq_getElem hio]
      exact List.getElem_mem hio
    have howlt : owner.getD i 0 < mx + 1 := Nat.lt_succ_of_le (hmax _ howm)
    have hface : ((List.range face_verts.length).map
        (UG.pmFaceRec owner neighbour face_verts)).getD i (UG.mkPMFace 0 [])
        = UG.pmFaceRec owner neighbour face_verts i :=
      map_range_getD _ _ _ hi _
    simp only [UG.pmExpected, hface]
    refine ⟨rfl, ?_, ?_, ?_⟩
    · rw [cellsOf_getD _ _ _ howlt]
      rw [mem_cellFacesUpTo]
      exact ⟨hi, Or.inl rfl⟩
    · rw [UG.pmFaceRec]
      constructor
      · intro hne
        by_contra hge
        push_neg at hge
        rw [if_neg (by omega)] at hne
        exact hne rfl
      · intro hlt
        rw [if_pos hlt]
        simp only [ne_eq]
        omega
    · intro nb hnbi
      have hiln : i < neighbour.length := by
        by_contra hge
        push_neg at hge
        rw [List.getElem?_eq_none hge] at hnbi
        exact absurd hnbi (by simp)
      have hnbd : neighbour.getD i 0 = nb := by
        rw [List.getD_eq_getElem?_getD, hnbi]
        rfl
      have hnblt : nb < mx + 1 := Nat.lt_succ_of_le (hnb i hi nb hnbi)
      constructor
      · rw [UG.pmFaceRec, if_pos hiln, hnbd]
      · rw [cellsOf_getD _ _ _ hnblt]
        rw [mem_cellFacesUpTo]
        exact ⟨hi, Or.inr ⟨hiln, hnbd⟩⟩

/-- Witness for C3: two faces, one internal (`neighbour = [1]`), over cells
`0` and `1`. -/
theorem C3_polymesh_import_witness :
    ∃ edges polys cells faces,
      UG.polymesh_get_faces false [0, 1] [1] [[0, 1, 2], [0, 1, 3]]
        = .ok (edges, polys, cells, faces) ∧
      cells.length = 1 + 1 ∧
      faces.length = ([[0, 1, 2], [0, 1, 3]] : List (List Nat)).length ∧
      polys = ([[0, 1, 2], [0, 1, 3]] : List (List Nat)).drop ([1] : List Nat).length ∧
      ∀ i, i < ([[0, 1, 2], [0, 1, 3]] : List (List Nat)).length →
        (faces.getD i (UG.mkPMFace 0 [])).owneri = (([0, 1] : List Nat).getD i 0 : Int) ∧
        i ∈ (cells.getD (([0, 1] : List Nat).getD i 0) (UG.mkPMCell 0)).faces ∧
        ((faces.getD i (UG.mkPMFace 0 [])).neighbouri ≠ -1 ↔ i < ([1] : List Nat).length) ∧
        (∀ nb, ([1] : List Nat)[i]? = some nb →
          (faces.getD i (UG.mkPMFace 0 [])).neighbouri = (nb : Int) ∧
          i ∈ (cells.getD nb (UG.mkPMCell 0)).faces) :=
  C3_polymesh_import false [0, 1] [1] [[0, 1, 2], [0, 1, 3]] 1
    (by decide) (by decide) (by decide)

/-- Counterexample for C4 as stated: on `C4exFaces` (one live boundary
face, plus one *deleted* face still carrying patch index 0) the export pass
succeeds and the boundary block emits the single entry
`(slot 0, nFaces 2, startFace 0)` — `update_text_boundary` counts the
deleted face — so the union of the emitted ranges is `{0, 1}` while the
set of export indices of non-deleted boundary faces is `{0}`. -/
theorem C4_counterexample :
    (UG.face_pass true 0 UG.C4exFaces []).map (fun r => r.2)
      = some (0, UG.C4exFaces, []) ∧
    (UG.face_pass false 0 UG.C4exFaces []).map (fun r => (r.2.1, r.2.2.1))
      = some (1, UG.C4exFs2) ∧
    (UG.update_text_boundary UG.C4exFs2 UG.C4exPatches).map (fun r => r.2)
      = some [(0, 2, 0)] ∧
    ¬ UG.boundaryPartitionOK [(0, 2, 0)] UG.C4exFs2 := by
  refine ⟨by decide, by decide, by decide, ?_⟩
  rintro ⟨_, hcov⟩
  have h1 := (hcov 1).mp ⟨(0, 2, 0), by simp, by constructor <;> norm_num [UG.inRange]⟩
  obtain ⟨f, hf, hdel, hnb, hfi⟩ := h1
  have : f = (⟨[0, 1, 2], 0, -1, 0, 0, false⟩ : UG.PMFace) ∨
      f = (⟨[0, 1, 2], 0, -1, 0, 5, true⟩ : UG.PMFace) := by
    simpa [UG.C4exFs2] using hf
  rcases this with rfl | rfl
  · simp at hfi
  · simp at hdel

theorem pyIdxInt_lt {len : Nat} {z : Int} {j : Nat}
    (h : UG.pyIdxInt len z = some j) : j < len := by
  rw [UG.pyIdxInt] at h
  by_cases hz : z < 0
  · rw [if_pos hz] at h
    by_cases hle : z.natAbs ≤ len
    · rw [if_pos hle, Option.some.injEq] at h
      have habs : z.natAbs ≠ 0 := by
        intro h0
        rw [Int.natAbs_eq_zero] at h0
        omega
      omega
    · rw [if_neg hle] at h
      exact absurd h (by simp)
  · rw [if_neg hz] at h
    by_cases hlt : z.toNat < len
    · rw [if_pos hlt, Option.some.injEq] at h
      omega
    · rw [if_neg hlt] at h
      exact absurd h (by simp)

theorem assignCelli_some (cells : List UG.PMCell) (celli : Nat) (z : Int)
    (h : (UG.pyIdxInt cells.length z).isSome) :
    ∃ cells' celli', UG.assignCelli cells celli z = some (cells', celli') ∧
      cells'.length = cells.length := by
  obtain ⟨j, hj⟩ := Option.isSome_iff_exists.mp h
  have hjlt : j < cells.length := pyIdxInt_lt hj
  have hc : cells[j]? = some cells[j] := List.getElem?_eq_getElem hjlt
  simp only [UG.assignCelli, hj, hc]
  by_cases hcc : cells[j].celli = -1
  · exact ⟨_, _, by rw [if_pos hcc], by simp⟩
  · exact ⟨_, _, by rw [if_neg hcc], rfl⟩

/-- `face_pass_go` succeeds under the crash-freedom hypotheses and returns
the `assignFacei` re-indexing of the face list, advancing the face counter
by the number of selected faces. -/
theorem face_pass_go_spec (internal : Bool) :
    ∀ (fs : List UG.PMFace) (i : Nat) (cells : List UG.PMCell) (celli : Nat),
    (∀ f ∈ fs, UG.facePassSelB internal f = true → f.verts ≠ []) →
    (∀ f ∈ fs, UG.facePassSelB internal f = true → internal = true →
      (UG.pyIdxInt cells.length f.owneri).isSome ∧
      (UG.pyIdxInt cells.length f.neighbouri).isSome) →
    ∃ text cells' celli',
      UG.face_pass_go internal fs i cells celli
        = some (text, i + (fs.filter (UG.facePassSelB internal)).length,
                UG.assignFacei internal fs i, cells', celli') ∧
      cells'.length = cells.length := by
  intro fs
  induction fs with
  | nil =>
    intro i cells celli _ _
    exact ⟨"", cells, celli, by simp [UG.face_pass_go, UG.assignFacei], rfl⟩
  | cons f rest ih =>
    intro i cells celli hv hc
    by_cases hsel : UG.facePassSelB internal f = true
    · have hverts : f.verts ≠ [] := hv f (by simp) hsel
      obtain ⟨last, hlast⟩ : ∃ l, f.verts.getLast? = some l := by
        rw [← Option.isSome_iff_exists, List.getLast?_isSome]
        exact hverts
      obtain ⟨line, hline⟩ : ∃ s, UG.gen_line f.verts = some s :=
        ⟨_, by rw [UG.gen_line, hlast]⟩
      have hstep : ∃ cells2 celli2,
          (if internal then
            match UG.assignCelli cells celli f.owneri with
            | none => none
            | some (cells1, celli1) => UG.assignCelli cells1 celli1 f.neighbouri
          else some (cells, celli)) = some (cells2, celli2) ∧
          cells2.length = cells.length := by
        cases internal with
        | false => exact ⟨cells, celli, rfl, rfl⟩
        | true =>
          obtain ⟨ho, hn⟩ := hc f (by simp) hsel rfl
          obtain ⟨cells1, celli1, h1, hl1⟩ := assignCelli_some cells celli f.owneri ho
          obtain ⟨cells2, celli2, h2, hl2⟩ :=
            assignCelli_some cells1 celli1 f.neighbouri (by rw [hl1]; exact hn)
          refine ⟨cells2, celli2, ?_, by omega⟩
          rw [if_pos rfl, h1]
          exact h2
      obtain ⟨cells2, celli2, hstepeq, hlen2⟩ := hstep
      obtain ⟨text, cells', celli', hrec, hlen'⟩ := ih (i + 1) cells2 celli2
        (fun g hg hs => hv g (by simp [hg]) hs)
        (fun g hg hs hi => by rw [hlen2]; exact hc g (by simp [hg]) hs hi)
      refine ⟨line ++ text, cells', celli', ?_, by omega⟩
      rw [UG.face_pass_go, if_pos hsel]
      simp only [hline, hstepeq, hrec]
      rw [UG.assignFacei, if_pos hsel, List.filter_cons_of_pos hsel]
      simp only [List.length_cons]
      have harith : i + ((rest.filter (UG.facePassSelB internal)).length + 1)
          = i + 1 + (rest.filter (UG.facePassSelB internal)).length := by omega
      rw [harith]
    · obtain ⟨text, cells', celli', hrec, hlen'⟩ := ih i cells celli
        (fun g hg hs => hv g (by simp [hg]) hs)
        (fun g hg hs hi => hc g (by simp [hg]) hs hi)
      refine ⟨text, cells', celli', ?_, hlen'⟩
      rw [UG.face_pass_go, if_neg hsel]
      simp only [hrec]
      rw [UG.assignFacei, if_neg hsel, List.filter_cons_of_neg hsel]

theorem facePassSelB_facei (b : Bool) (f : UG.PMFace) (x : Int) :
    UG.facePassSelB b { f with facei := x } = UG.facePassSelB b f := rfl

theorem facePassSelB_true_false {f : UG.PMFace}
    (h : UG.facePassSelB true f = true) : UG.facePassSelB false f = false := by
  rw [UG.facePassSelB] at h
  simp at h
  rw [UG.facePassSelB]
  simp [h.1, h.2]

theorem assignFacei_filter_same (b : Bool) : ∀ (fs : List UG.PMFace) (i : Nat),
    (UG.assignFacei b fs i).filter (UG.facePassSelB b)
      = UG.stampFacei (fs.filter (UG.facePassSelB b)) i := by
  intro fs
  induction fs with
  | nil => intro i; rfl
  | cons f rest ih =>
    intro i
    by_cases hsel : UG.facePassSelB b f = true
    · rw [UG.assignFacei, if_pos hsel, List.filter_cons_of_pos hsel,
        List.filter_cons_of_pos (by rw [facePassSelB_facei]; exact hsel),
        UG.stampFacei, ih]
    · rw [UG.assignFacei, if_neg hsel, List.filter_cons_of_neg hsel,
        List.filter_cons_of_neg hsel, ih]

theorem assignFacei_internal_filter_boundary : ∀ (fs : List UG.PMFace) (i : Nat),
    (UG.assignFacei true fs i).filter (UG.facePassSelB false)
      = fs.filter (UG.facePassSelB false) := by
  intro fs
  induction fs with
  | nil => intro i; rfl
  | cons f rest ih =>
    intro i
    by_cases hsel : UG.facePassSelB true f = true
    · have hbf : UG.facePassSelB false f = false := facePassSelB_true_false hsel
      have hbf' : ¬ UG.facePassSelB false ({ f with facei := (i : Int) }) = true := by
        rw [facePassSelB_facei, hbf]
        simp
      rw [UG.assignFacei, if_pos hsel, List.filter_cons_of_neg hbf',
        List.filter_cons_of_neg (by rw [hbf]; simp), ih]
    · rw [UG.assignFacei, if_neg hsel]
      by_cases hb : UG.facePassSelB false f = true
      · rw [List.filter_cons_of_pos hb, List.filter_cons_of_pos hb, ih]
      · rw [List.filter_cons_of_neg hb, List.filter_cons_of_neg hb, ih]

theorem assignFacei_mem_shadow (b : Bool) : ∀ (fs : List UG.PMFace) (i : Nat),
    ∀ f ∈ UG.assignFacei b fs i, ∃ g ∈ fs,
      f.verts = g.verts ∧ f.owneri = g.owneri ∧ f.neighbouri = g.neighbouri ∧
      f.mati = g.mati ∧ f.deleted = g.deleted := by
  intro fs
  induction fs with
  | nil => intro i f hf; simp [UG.assignFacei] at hf
  | cons g rest ih =>
    intro i f hf
    by_cases hsel : UG.facePassSelB b g = true
    · rw [UG.assignFacei, if_pos hsel] at hf
      rcases List.mem_cons.mp hf with rfl | hf'
      · exact ⟨g, by simp, rfl, rfl, rfl, rfl, rfl⟩
      · obtain ⟨g', hg', hp⟩ := ih (i + 1) f hf'
        exact ⟨g', by simp [hg'], hp⟩
    · rw [UG.assignFacei, if_neg hsel] at hf
      rcases List.mem_cons.mp hf with rfl | hf'
      · exact ⟨f, by simp, rfl, rfl, rfl, rfl, rfl⟩
      · obtain ⟨g', hg', hp⟩ := ih i f hf'
        exact ⟨g', by simp [hg'], hp⟩

theorem stampFacei_getElem? : ∀ (l : List UG.PMFace) (i r : Nat),
    (UG.stampFacei l i)[r]?
      = (l[r]?).map (fun f => { f with facei := ((i + r : Nat) : Int) }) := by
  intro l
  induction l with
  | nil => intro i r; simp [UG.stampFacei]
  | cons f rest ih =>
    intro i r
    cases r with
    | zero => simp [UG.stampFacei]
    | succ r =>
      rw [UG.stampFacei]
      simp only [List.getElem?_cons_succ]
      rw [ih (i + 1) r, show i + 1 + r = i + (r + 1) from by omega]

theorem stampFacei_map_mati : ∀ (l : List UG.PMFace) (i : Nat),
    (UG.stampFacei l i).map (fun f => f.mati) = l.map (fun f => f.mati) := by
  intro l
  induction l with
  | nil => intro i; rfl
  | cons f rest ih =>
    intro i
    rw [UG.stampFacei, List.map_cons, List.map_cons, ih]

theorem stampFacei_countP (p : UG.PMFace → Bool)
    (hp : ∀ f x, p { f with facei := x } = p f) :
    ∀ (l : List UG.PMFace) (i : Nat),
    (UG.stampFacei l i).countP p = l.countP p := by
  intro l
  induction l with
  | nil => intro i; rfl
  | cons f rest ih =>
    intro i
    rw [UG.stampFacei, List.countP_cons, List.countP_cons, ih, hp]

theorem filter_filter_of_imp {α : Type} (p q : α → Bool) : ∀ (l : List α),
    (∀ x ∈ l, p x = true → q x = true) →
    l.filter p = (l.filter q).filter p := by
  intro l
  induction l with
  | nil => intro _; rfl
  | cons a t ih =>
    intro h
    by_cases hp : p a = true
    · rw [List.filter_cons_of_pos hp, List.filter_cons_of_pos (h a (by simp) hp),
        List.filter_cons_of_pos hp, ih (fun x hx => h x (by simp [hx]))]
    · by_cases hq : q a = true
      · rw [List.filter_cons_of_neg hp, List.filter_cons_of_pos hq,
          List.filter_cons_of_neg hp, ih (fun x hx => h x (by simp [hx]))]
      · rw [List.filter_cons_of_neg hp, List.filter_cons_of_neg hq,
          ih (fun x hx => h x (by simp [hx]))]

theorem filter_lt_eq_length_le (c : Int) : ∀ (L : List UG.PMFace),
    (L.filter (fun f => f.mati < c)).length
      + (L.filter (fun f => f.mati = c)).length ≤ L.length := by
  intro L
  induction L with
  | nil => simp
  | cons f T ih =>
    by_cases h1 : f.mati < c
    · rw [List.filter_cons_of_pos (by simp [h1]),
        List.filter_cons_of_neg (by simp; omega)]
      simp only [List.length_cons]
      omega
    · by_cases h2 : f.mati = c
      · rw [List.filter_cons_of_neg (by simp [h1]),
          List.filter_cons_of_pos (by simp [h2])]
        simp only [List.length_cons]
        omega
      · rw [List.filter_cons_of_neg (by simp [h1]),
          List.filter_cons_of_neg (by simp [h2])]
        simp only [List.length_cons]
        omega

/-- In a list sorted by `mati`, position `r` holds patch index `c` exactly
when `r` lies in the block `[count(< c), count(< c) + count(= c))`. -/
theorem sorted_mati_getElem_iff (c : Int) :
    ∀ (L : List UG.PMFace), L.Pairwise (fun f g => f.mati ≤ g.mati) →
    ∀ (r : Nat) (f : UG.PMFace), L[r]? = some f →
      (f.mati = c ↔
        (L.filter (fun g => g.mati < c)).length ≤ r ∧
        r < (L.filter (fun g => g.mati < c)).length
            + (L.filter (fun g => g.mati = c)).length) := by
  intro L
  induction L with
  | nil => intro _ r f hf; simp at hf
  | cons a T ih =>
    intro hp r f hf
    obtain ⟨ha, hT⟩ := List.pairwise_cons.mp hp
    rcases Int.lt_trichotomy a.mati c with hac | hac | hac
    · have hclt : (List.filter (fun g => g.mati < c) (a :: T)).length
          = (List.filter (fun g => g.mati < c) T).length + 1 := by
        rw [List.filter_cons_of_pos (by simp [hac])]
        simp
      have hceq : (List.filter (fun g => g.mati = c) (a :: T)).length
          = (List.filter (fun g => g.mati = c) T).length := by
        rw [List.filter_cons_of_neg (by simp; omega)]
      cases r with
      | zero =>
        rw [List.getElem?_cons_zero, Option.some.injEq] at hf
        subst hf
        rw [hclt, hceq]
        constructor
        · intro h; omega
        · rintro ⟨h1, _⟩; omega
      | succ r =>
        rw [List.getElem?_cons_succ] at hf
        rw [hclt, hceq, ih hT r f hf]
        omega
    · have hTge : ∀ g ∈ T, c ≤ g.mati := by
        intro g hg
        have := ha g hg
        omega
      have hcltT : (List.filter (fun g => g.mati < c) T).length = 0 := by
        rw [List.filter_eq_nil_iff.mpr (fun g hg => by
          simp only [decide_eq_true_eq]
          have := hTge g hg
          omega)]
        rfl
      have hclt : (List.filter (fun g => g.mati < c) (a :: T)).length = 0 := by
        rw [List.filter_cons_of_neg (by simp; omega), hcltT]
      have hceq : (List.filter (fun g => g.mati = c) (a :: T)).length
          = (List.filter (fun g => g.mati = c) T).length + 1 := by
        rw [List.filter_cons_of_pos (by simp [hac])]
        simp
      cases r with
      | zero =>
        rw [List.getElem?_cons_zero, Option.some.injEq] at hf
        subst hf
        rw [hclt, hceq]
        constructor
        · intro _; omega
        · intro _; exact hac
      | succ r =>
        rw [List.getElem?_cons_succ] at hf
        rw [hclt, hceq, ih hT r f hf, hcltT]
        omega
    · have hTgt : ∀ g ∈ T, c < g.mati := by
        intro g hg
        have := ha g hg
        omega
      have hclt : (List.filter (fun g => g.mati < c) (a :: T)).length = 0 := by
        rw [List.filter_eq_nil_iff.mpr (fun g hg => by
          simp only [decide_eq_true_eq]
          rcases List.mem_cons.mp hg with rfl | hg'
          · omega
          · have := hTgt g hg'
            omega)]
        rfl
      have hceq : (List.filter (fun g => g.mati = c) (a :: T)).length = 0 := by
        rw [List.filter_eq_nil_iff.mpr (fun g hg => by
          simp only [decide_eq_true_eq]
          rcases List.mem_cons.mp hg with rfl | hg'
          · omega
          · have := hTgt g hg'
            omega)]
        rfl
      have hfmem : f ∈ a :: T := List.getElem?_mem hf
      have hfgt : c < f.mati := by
        rcases List.mem_cons.mp hfmem with rfl | hf'
        · omega
        · exact hTgt f hf'
      rw [hclt, hceq]
      constructor
      · intro h; omega
      · rintro ⟨_, h2⟩; omega

/-- The head of a nonempty `filter` sits at an index all of whose
predecessors fail the predicate. -/
theorem filter_head_index (p : UG.PMFace → Bool) :
    ∀ (L : List UG.PMFace) (f0 : UG.PMFace) (fr : List UG.PMFace),
    L.filter p = f0 :: fr →
    ∃ r : Nat, L[r]? = some f0 ∧ p f0 = true ∧
      ∀ j : Nat, j < r → ∀ g, L[j]? = some g → p g = false := by
  intro L
  induction L with
  | nil => intro f0 fr h; simp at h
  | cons a T ih =>
    intro f0 fr h
    by_cases hp : p a = true
    · rw [List.filter_cons_of_pos hp, List.cons.injEq] at h
      refine ⟨0, ?_, ?_, ?_⟩
      · rw [List.getElem?_cons_zero, h.1]
      · rw [← h.1]; exact hp
      · intro j hj; omega
    · rw [List.filter_cons_of_neg hp] at h
      obtain ⟨r, hr, hpf, hleast⟩ := ih f0 fr h
      refine ⟨r + 1, by rw [List.getElem?_cons_succ]; exact hr, hpf, ?_⟩
      intro j hj g hg
      cases j with
      | zero =>
        rw [List.getElem?_cons_zero, Option.some.injEq] at hg
        subst hg
        simpa using hp
      | succ j =>
        rw [List.getElem?_cons_succ] at hg
        exact hleast j (by omega) g hg

/-- In a sorted-by-`mati` list, the first face with `mati = c` sits exactly
at position `count(< c)`. -/
theorem sorted_filter_head (c : Int) (L : List UG.PMFace)
    (hp : L.Pairwise (fun f g => f.mati ≤ g.mati))
    (f0 : UG.PMFace) (fr : List UG.PMFace)
    (hfil : L.filter (fun f => f.mati = c) = f0 :: fr) :
    L[(L.filter (fun g => g.mati < c)).length]? = some f0 := by
  obtain ⟨r, hr, hpf, hleast⟩ := filter_head_index _ L f0 fr hfil
  have hceq : 0 < (L.filter (fun g => g.mati = c)).length := by
    rw [hfil]; simp
  have hf0c : f0.mati = c := by simpa using hpf
  have hbounds := (sorted_mati_getElem_iff c L hp r f0 hr).mp hf0c
  have hlt_len : (L.filter (fun g => g.mati < c)).length < L.length := by
    have := filter_lt_eq_length_le c L
    omega
  obtain ⟨g, hg⟩ : ∃ g, L[(L.filter (fun g => g.mati < c)).length]? = some g :=
    ⟨_, List.getElem?_eq_getElem hlt_len⟩
  have hgc : g.mati = c := by
    rw [sorted_mati_getElem_iff c L hp _ g hg]
    omega
  rcases Nat.lt_trichotomy (L.filter (fun g => g.mati < c)).length r with h | h | h
  · have := hleast _ h g hg
    simp [hgc] at this
  · rw [← h] at hr
    exact hr
  · omega

/-- Characterization of the boundary-block patch loop: it succeeds iff every
surviving patch has a nonempty `bfaces`, emits one entry per surviving patch
with `nFaces = len(bfaces)` and `startFace = bfaces[0].facei`, preserves
slots of deleted patches, and emits strictly increasing slot numbers. -/
theorem update_text_boundary_go_spec (fs2 L : List UG.PMFace)
    (hbf : ∀ j : Nat, UG.boundary_bfaces fs2 j
      = L.filter (fun f => f.mati = (j : Int))) :
    ∀ (bs : List UG.PMBoundary) (s : Nat),
    (∀ jrel : Nat, ∀ b, bs[jrel]? = some b → b.deleted = false →
      L.filter (fun f => f.mati = ((s + jrel : Nat) : Int)) ≠ []) →
    ∃ btext n es, UG.update_text_boundary_go fs2 bs s = some (btext, n, es) ∧
      (∀ e ∈ es, ∃ jrel : Nat, ∃ b, bs[jrel]? = some b ∧ b.deleted = false ∧
        ∃ f0 fr, L.filter (fun f => f.mati = ((s + jrel : Nat) : Int)) = f0 :: fr ∧
          e = (s + jrel, (f0 :: fr).length, f0.facei)) ∧
      (∀ jrel : Nat, ∀ b, bs[jrel]? = some b → b.deleted = false →
        ∃ e ∈ es, e.1 = s + jrel) ∧
      (∀ e ∈ es, s ≤ e.1) ∧
      es.Pairwise (fun e1 e2 => e1.1 < e2.1) := by
  intro bs
  induction bs with
  | nil =>
    intro s _
    exact ⟨"", 0, [], rfl, by simp, by intro jrel b h; simp at h, by simp, by simp⟩
  | cons b bs ih =>
    intro s hlive
    by_cases hd : b.deleted = true
    · obtain ⟨btext, n, es, hgo, h1, h2, h3, h4⟩ := ih (s + 1)
        (fun jrel b' hb' hbd => by
          have := hlive (jrel + 1) b' (by rw [← hb', List.getElem?_cons_succ]) hbd
          rw [show s + 1 + jrel = s + (jrel + 1) from by omega]
          exact this)
      refine ⟨btext, n, es, ?_, ?_, ?_, ?_, h4⟩
      · rw [UG.update_text_boundary_go, if_pos hd]
        exact hgo
      · intro e he
        obtain ⟨jrel, b', hb', hbd, f0, fr, hfil, hee⟩ := h1 e he
        refine ⟨jrel + 1, b', by rw [← hb', List.getElem?_cons_succ], hbd, f0, fr, ?_, ?_⟩
        · rw [show s + (jrel + 1) = s + 1 + jrel from by omega]
          exact hfil
        · rw [show s + (jrel + 1) = s + 1 + jrel from by omega]
          exact hee
      · intro jrel b' hb' hbd
        cases jrel with
        | zero =>
          rw [List.getElem?_cons_zero, Option.some.injEq] at hb'
          rw [← hb'] at hbd
          rw [hbd] at hd
          exact absurd hd (by simp)
        | succ jrel =>
          rw [List.getElem?_cons_succ] at hb'
          obtain ⟨e, he, hee⟩ := h2 jrel b' hb' hbd
          exact ⟨e, he, by omega⟩
      · intro e he
        have := h3 e he
        omega
    · have hd' : b.deleted = false := by
        cases hb : b.deleted
        · rfl
        · exact absurd hb hd
      have hne0 := hlive 0 b (by rw [List.getElem?_cons_zero]) hd'
      obtain ⟨f0, fr, hfil⟩ := List.exists_cons_of_ne_nil hne0
      obtain ⟨btext, n, es, hgo, h1, h2, h3, h4⟩ := ih (s + 1)
        (fun jrel b' hb' hbd => by
          have := hlive (jrel + 1) b' (by rw [← hb', List.getElem?_cons_succ]) hbd
          rw [show s + 1 + jrel = s + (jrel + 1) from by omega]
          exact this)
      have hbfs : UG.boundary_bfaces fs2 s = f0 :: fr := by
        rw [hbf s]
        rw [show ((s : Nat) : Int) = ((s + 0 : Nat) : Int) from by omega]
        exact hfil
      obtain ⟨bt2, hgoeq⟩ : ∃ t, UG.update_text_boundary_go fs2 (b :: bs) s =
          some (t, n + 1, (s, (f0 :: fr).length, f0.facei) :: es) := by
        simp only [UG.update_text_boundary_go, hd', if_false, hbfs, hgo, Bool.false_eq_true]
        exact ⟨_, rfl⟩
      refine ⟨bt2, n + 1, (s, (f0 :: fr).length, f0.facei) :: es, hgoeq, ?_, ?_, ?_, ?_⟩
      · intro e he
        rcases List.mem_cons.mp he with rfl | he'
        · refine ⟨0, b, by rw [List.getElem?_cons_zero], hd', f0, fr, ?_, by simp⟩
          rw [show ((s + 0 : Nat) : Int) = ((s : Nat) : Int) from by omega]
          rw [← hbf s]
          exact hbfs
        · obtain ⟨jrel, b', hb', hbd, g0, gr, hgfil, hee⟩ := h1 e he'
          refine ⟨jrel + 1, b', by rw [← hb', List.getElem?_cons_succ], hbd, g0, gr, ?_, ?_⟩
          · rw [show s + (jrel + 1) = s + 1 + jrel from by omega]
            exact hgfil
          · rw [show s + (jrel + 1) = s + 1 + jrel from by omega]
            exact hee
      · intro jrel b' hb' hbd
        cases jrel with
        | zero => exact ⟨(s, (f0 :: fr).length, f0.facei), by simp, by simp⟩
        | succ jrel =>
          rw [List.getElem?_cons_succ] at hb'
          obtain ⟨e, he, hee⟩ := h2 jrel b' hb' hbd
          exact ⟨e, by simp [he], by omega⟩
      · intro e he
        rcases List.mem_cons.mp he with rfl | he'
        · simp
        · have := h3 e he'
          omega
      · rw [List.pairwise_cons]
        refine ⟨?_, h4⟩
        intro e he
        have := h3 e he
        simp only []
        omega

theorem stampFacei_length : ∀ (l : List UG.PMFace) (i : Nat),
    (UG.stampFacei l i).length = l.length := by
  intro l
  induction l with
  | nil => intro i; rfl
  | cons f rest ih =>
    intro i
    rw [UG.stampFacei, List.length_cons, List.length_cons, ih]

theorem filter_lt_mono_count (j1 j2 : Int) (h : j1 < j2) : ∀ (L : List UG.PMFace),
    (L.filter (fun f => f.mati < j1)).length
      + (L.filter (fun f => f.mati = j1)).length
      ≤ (L.filter (fun f => f.mati < j2)).length := by
  intro L
  induction L with
  | nil => simp
  | cons f T ih =>
    by_cases h1 : f.mati < j1
    · rw [List.filter_cons_of_pos (by simp [h1]),
        List.filter_cons_of_neg (by simp; omega),
        List.filter_cons_of_pos (by simp; omega)]
      simp only [List.length_cons]
      omega
    · by_cases h2 : f.mati = j1
      · rw [List.filter_cons_of_neg (by simp [h1]),
          List.filter_cons_of_pos (by simp [h2]),
          List.filter_cons_of_pos (by simp; omega)]
        simp only [List.length_cons]
        omega
      · rw [List.filter_cons_of_neg (by simp [h1]),
          List.filter_cons_of_neg (by simp [h2])]
        by_cases h3 : f.mati < j2
        · rw [List.filter_cons_of_pos (by simp [h3])]
          simp only [List.length_cons]
          omega
        · rw [List.filter_cons_of_neg (by simp [h3])]
          exact ih

theorem facePassSelB_false_iff (f : UG.PMFace) :
    UG.facePassSelB false f = true ↔ f.deleted = false ∧ f.neighbouri = -1 := by
  simp [UG.facePassSelB]

theorem facePassSelB_deleted {b : Bool} {f : UG.PMFace}
    (h : UG.facePassSelB b f = true) : f.deleted = false := by
  simp only [UG.facePassSelB, Bool.and_eq_true, Bool.not_eq_true'] at h
  exact h.1

/-- C4 (amended): after a PolyMesh export pass on a state in which every face
carrying a patch index (`mati ≥ 0`) is a live boundary face, the stored
boundary faces are grouped by ascending patch index, every live boundary
face's patch index names a surviving patch, and every surviving patch owns
at least one face, the boundary block's emitted
`[startFace, startFace + nFaces)` ranges are pairwise disjoint and their
union is exactly the set of export face indices of the non-deleted boundary
faces; deleted patches keep their enumeration slot but contribute no faces.
As stated by the spec (without the "no deleted face still carries a patch
index" precondition) the invariant fails: `update_text_boundary` counts
deleted faces into `nFaces`. -/
theorem C4_boundary_partition (ugfaces : List UG.PMFace) (ugcells : List UG.PMCell)
    (patches : List UG.PMBoundary)
    (Hv : ∀ f ∈ ugfaces, f.deleted = false → f.verts ≠ [])
    (Hc : ∀ f ∈ ugfaces, UG.facePassSelB true f = true →
      (UG.pyIdxInt ugcells.length f.owneri).isSome ∧
      (UG.pyIdxInt ugcells.length f.neighbouri).isSome)
    (Hmat : ∀ f ∈ ugfaces, 0 ≤ f.mati → f.deleted = false ∧ f.neighbouri = -1)
    (Hpatch : ∀ f ∈ ugfaces, UG.facePassSelB false f = true →
      ∃ j : Nat, f.mati = (j : Int) ∧
        ∃ b, patches[j]? = some b ∧ b.deleted = false)
    (Hsort : (ugfaces.filter (UG.facePassSelB false)).Pairwise
      (fun f g => f.mati ≤ g.mati))
    (Hne : ∀ (j : Nat) (b : UG.PMBoundary), patches[j]? = some b →
      b.deleted = false → ∃ f ∈ ugfaces, f.mati = (j : Int)) :
    ∃ text i2 fs2 cs2,
      UG.update_text_faces ugfaces ugcells = some (text, i2, fs2, cs2) ∧
      ∃ btext es, UG.update_text_boundary fs2 patches = some (btext, es) ∧
        UG.boundaryPartitionOK es fs2 := by
  obtain ⟨t1, cells1, celli1, hgo1, hlen1⟩ :=
    face_pass_go_spec true ugfaces 0
      (ugcells.map (fun c => { c with celli := -1 })) 0
      (fun f hf hs => Hv f hf (facePassSelB_deleted hs))
      (fun f hf hs _ => by
        rw [List.length_map]
        exact Hc f hf hs)
  have hfp1 : UG.face_pass true 0 ugfaces ugcells
      = some (t1, (ugfaces.filter (UG.facePassSelB true)).length,
              UG.assignFacei true ugfaces 0, cells1) := by
    simp only [UG.face_pass, reduceIte, hgo1, Nat.zero_add]
  have hshadow1 := assignFacei_mem_shadow true ugfaces 0
  obtain ⟨t2, cells2, celli2, hgo2, hlen2⟩ :=
    face_pass_go_spec false (UG.assignFacei true ugfaces 0)
      ((ugfaces.filter (UG.facePassSelB true)).length) cells1 0
      (fun f hf hs => by
        obtain ⟨g, hg, hv, _, _, _, hdel⟩ := hshadow1 f hf
        rw [hv]
        exact Hv g hg (by rw [← hdel]; exact facePassSelB_deleted hs))
      (fun f hf hs hft => by simp at hft)
  have hfp2 : UG.face_pass false ((ugfaces.filter (UG.facePassSelB true)).length)
      (UG.assignFacei true ugfaces 0) cells1
      = some (t2,
          (ugfaces.filter (UG.facePassSelB true)).length
            + ((UG.assignFacei true ugfaces 0).filter (UG.facePassSelB false)).length,
          UG.assignFacei false (UG.assignFacei true ugfaces 0)
            ((ugfaces.filter (UG.facePassSelB true)).length),
          cells2) := by
    simp only [UG.face_pass]
    rw [if_neg Bool.false_ne_true, hgo2]
  obtain ⟨text, hutf⟩ : ∃ t, UG.update_text_faces ugfaces ugcells
      = some (t,
          (ugfaces.filter (UG.facePassSelB true)).length
            + ((UG.assignFacei true ugfaces 0).filter (UG.facePassSelB false)).length,
          UG.assignFacei false (UG.assignFacei true ugfaces 0)
            ((ugfaces.filter (UG.facePassSelB true)).length),
          cells2) := by
    simp only [UG.update_text_faces, hfp1, hfp2]
    exact ⟨_, rfl⟩
  set i1 := (ugfaces.filter (UG.facePassSelB true)).length with hi1
  set fs1 := UG.assignFacei true ugfaces 0 with hfs1
  set fs2 := UG.assignFacei false fs1 i1 with hfs2
  set M := ugfaces.filter (UG.facePassSelB false) with hM
  set L := UG.stampFacei M i1 with hL
  have hLfilter : fs2.filter (UG.facePassSelB false) = L := by
    rw [hfs2, assignFacei_filter_same false fs1 i1, hfs1,
      assignFacei_internal_filter_boundary, hL, hM]
  have hshadow2 : ∀ f ∈ fs2, ∃ g ∈ ugfaces,
      f.verts = g.verts ∧ f.owneri = g.owneri ∧ f.neighbouri = g.neighbouri ∧
      f.mati = g.mati ∧ f.deleted = g.deleted := by
    intro f hf
    rw [hfs2] at hf
    obtain ⟨g1, hg1, e1a, e1b, e1c, e1d, e1e⟩ := assignFacei_mem_shadow false fs1 i1 f hf
    rw [hfs1] at hg1
    obtain ⟨g2, hg2, e2a, e2b, e2c, e2d, e2e⟩ := assignFacei_mem_shadow true ugfaces 0 g1 hg1
    exact ⟨g2, hg2, e1a.trans e2a, e1b.trans e2b, e1c.trans e2c,
      e1d.trans e2d, e1e.trans e2e⟩
  have hselm : ∀ f ∈ fs2, ∀ j : Nat, f.mati = (j : Int) →
      UG.facePassSelB false f = true := by
    intro f hf j hj
    obtain ⟨g, hg, _, _, hnb, hm, hdel⟩ := hshadow2 f hf
    have hg0 : 0 ≤ g.mati := by rw [← hm, hj]; exact Int.natCast_nonneg j
    obtain ⟨hgd, hgn⟩ := Hmat g hg hg0
    exact (facePassSelB_false_iff f).mpr ⟨hdel.trans hgd, hnb.trans hgn⟩
  have hbf : ∀ j : Nat, UG.boundary_bfaces fs2 j
      = L.filter (fun f => f.mati = (j : Int)) := by
    intro j
    have h1 := filter_filter_of_imp (fun f => decide (f.mati = (j : Int)))
      (UG.facePassSelB false) fs2
      (fun f hf hm => hselm f hf j (by simpa using hm))
    simp only [UG.boundary_bfaces]
    rw [h1, hLfilter]
  have hLsort : L.Pairwise (fun f g => f.mati ≤ g.mati) := by
    have h1 : (L.map (fun f => f.mati)).Pairwise (fun a b => a ≤ b) := by
      rw [hL, stampFacei_map_mati, hM]
      exact List.pairwise_map.mpr Hsort
    exact List.pairwise_map.mp h1
  have hlive : ∀ (jrel : Nat) (b : UG.PMBoundary), patches[jrel]? = some b →
      b.deleted = false →
      L.filter (fun f => f.mati = ((0 + jrel : Nat) : Int)) ≠ [] := by
    intro j b hb hbd
    obtain ⟨f, hf, hfm⟩ := Hne j b hb hbd
    have hfsel : UG.facePassSelB false f = true :=
      (facePassSelB_false_iff f).mpr
        (Hmat f hf (by rw [hfm]; exact Int.natCast_nonneg j))
    have hmem : f ∈ M := by
      rw [hM]
      exact List.mem_filter.mpr ⟨hf, hfsel⟩
    obtain ⟨r, hr⟩ := List.getElem?_of_mem hmem
    have hrL : L[r]? = some { f with facei := ((i1 + r : Nat) : Int) } := by
      rw [hL, stampFacei_getElem?, hr, Option.map_some']
    intro hnil
    have hnot := List.filter_eq_nil_iff.mp hnil _ (List.getElem?_mem hrL)
    simp only [decide_eq_true_eq] at hnot
    exact hnot (by simpa using hfm)
  obtain ⟨btext0, n0, es, hgo, h1, h2, h3, h4⟩ :=
    update_text_boundary_go_spec fs2 L hbf patches 0 hlive
  obtain ⟨btext, hutb⟩ : ∃ t, UG.update_text_boundary fs2 patches = some (t, es) := by
    simp only [UG.update_text_boundary, hgo]
    exact ⟨_, rfl⟩
  have hentry : ∀ e ∈ es, ∃ j : Nat, e.1 = j ∧
      e.2.1 = (L.filter (fun f => f.mati = (j : Int))).length ∧
      e.2.2 = ((i1 + (L.filter (fun g => g.mati < (j : Int))).length : Nat) : Int) := by
    intro e he
    obtain ⟨jrel, b, hb, hbd, f0, fr, hfil, hee⟩ := h1 e he
    rw [Nat.zero_add] at hfil hee
    have hhead := sorted_filter_head (jrel : Int) L hLsort f0 fr hfil
    rw [hL, stampFacei_getElem?] at hhead
    obtain ⟨g, hg, hgf⟩ := Option.map_eq_some'.mp hhead
    refine ⟨jrel, by rw [hee], by rw [hee, hfil], ?_⟩
    rw [hee]
    show f0.facei = _
    rw [← hgf]
  have hdisj : es.Pairwise
      (fun e1 e2 => ∀ z : Int, ¬(UG.inRange e1 z ∧ UG.inRange e2 z)) := by
    refine List.Pairwise.imp_of_mem (fun {e1 e2} he1 he2 hlt => ?_) h4
    obtain ⟨j1, hj1, hn1, hs1⟩ := hentry e1 he1
    obtain ⟨j2, hj2, hn2, hs2⟩ := hentry e2 he2
    intro z hz
    obtain ⟨hz1, hz2⟩ := hz
    simp only [UG.inRange, hn1, hs1] at hz1
    simp only [UG.inRange, hn2, hs2] at hz2
    rw [hj1, hj2] at hlt
    have hmono := filter_lt_mono_count (j1 : Int) (j2 : Int) (by exact_mod_cast hlt) L
    obtain ⟨A1, A2⟩ := hz1
    obtain ⟨B1, B2⟩ := hz2
    omega
  have hcover : ∀ z : Int, (∃ e ∈ es, UG.inRange e z) ↔
      ∃ f ∈ fs2, f.deleted = false ∧ f.neighbouri = -1 ∧ f.facei = z := by
    intro z
    constructor
    · rintro ⟨e, he, hz⟩
      obtain ⟨j, hj, hn, hs⟩ := hentry e he
      simp only [UG.inRange, hn, hs] at hz
      obtain ⟨A1, A2⟩ := hz
      have hlen := filter_lt_eq_length_le (j : Int) L
      obtain ⟨r, hrz, hrlo, hrhi⟩ : ∃ r : Nat, ((i1 + r : Nat) : Int) = z ∧
          (L.filter (fun g => g.mati < (j : Int))).length ≤ r ∧
          r < (L.filter (fun g => g.mati < (j : Int))).length
            + (L.filter (fun f => f.mati = (j : Int))).length := by
        refine ⟨(z - (i1 : Int)).toNat, by omega, by omega, by omega⟩
      have hrlen : r < L.length := by omega
      obtain ⟨f, hf⟩ : ∃ f, L[r]? = some f := ⟨L[r], List.getElem?_eq_getElem hrlen⟩
      have hfm : f.mati = (j : Int) :=
        (sorted_mati_getElem_iff (j : Int) L hLsort r f hf).mpr ⟨hrlo, hrhi⟩
      have hfmemL : f ∈ L := List.getElem?_mem hf
      have hfmem : f ∈ fs2 ∧ UG.facePassSelB false f = true := by
        rw [← hLfilter] at hfmemL
        exact List.mem_filter.mp hfmemL
      have hface : f.facei = z := by
        rw [hL, stampFacei_getElem?] at hf
        obtain ⟨g, hg, hgf⟩ := Option.map_eq_some'.mp hf
        rw [← hgf]
        exact hrz
      obtain ⟨hdel, hnb⟩ := (facePassSelB_false_iff f).mp hfmem.2
      exact ⟨f, hfmem.1, hdel, hnb, hface⟩
    · rintro ⟨f, hf, hdel, hnb, hfz⟩
      have hfsel : UG.facePassSelB false f = true :=
        (facePassSelB_false_iff f).mpr ⟨hdel, hnb⟩
      have hfL : f ∈ L := by
        rw [← hLfilter]
        exact List.mem_filter.mpr ⟨hf, hfsel⟩
      obtain ⟨r, hr⟩ := List.getElem?_of_mem hfL
      have hr2 := hr
      rw [hL, stampFacei_getElem?] at hr2
      obtain ⟨g, hg, hgf⟩ := Option.map_eq_some'.mp hr2
      have hgmem : g ∈ M := List.getElem?_mem hg
      have hgmem2 : g ∈ ugfaces ∧ UG.facePassSelB false g = true := by
        rw [hM] at hgmem
        exact List.mem_filter.mp hgmem
      obtain ⟨j, hjm, b, hbj, hbd⟩ := Hpatch g hgmem2.1 hgmem2.2
      have hfm : f.mati = (j : Int) := by
        rw [← hgf]
        exact hjm
      have hbounds := (sorted_mati_getElem_iff (j : Int) L hLsort r f hr).mp hfm
      obtain ⟨e, he, hej⟩ := h2 j b hbj hbd
      obtain ⟨j', hj', hn, hs⟩ := hentry e he
      have hjj : j' = j := by omega
      subst hjj
      refine ⟨e, he, ?_⟩
      simp only [UG.inRange, hn, hs]
      have hffacei : f.facei = ((i1 + r : Nat) : Int) := by
        rw [← hgf]
      have hzz : ((i1 + r : Nat) : Int) = z := by rw [← hfz, hffacei]
      obtain ⟨C1, C2⟩ := hbounds
      exact ⟨by omega, by omega⟩
  exact ⟨text, _, fs2, cells2, hutf, btext, es, hutb, hdisj, hcover⟩

theorem C4_boundary_partition_witness :
    ∃ text i2 fs2 cs2,
      UG.update_text_faces [⟨[0, 1, 2], 0, -1, 0, 7, false⟩] []
        = some (text, i2, fs2, cs2) ∧
      ∃ btext es, UG.update_text_boundary fs2 UG.C4exPatches
        = some (btext, es) ∧
        UG.boundaryPartitionOK es fs2 :=
  C4_boundary_partition [⟨[0, 1, 2], 0, -1, 0, 7, false⟩] [] UG.C4exPatches
    (by decide) (by decide) (by decide)
    (by
      intro f hf _
      refine ⟨0, ?_, ⟨"default", "patch", "", 0, 0, false⟩, ?_, rfl⟩
      · have hfe : f = ⟨[0, 1, 2], 0, -1, 0, 7, false⟩ := by simpa using hf
        rw [hfe]
        rfl
      · rfl)
    (by
      have hfil : List.filter (UG.facePassSelB false)
          [(⟨[0, 1, 2], 0, -1, 0, 7, false⟩ : UG.PMFace)]
          = [⟨[0, 1, 2], 0, -1, 0, 7, false⟩] := rfl
      rw [hfil]
      exact List.pairwise_singleton _ _)
    (by
      intro j b hj hbd
      cases j with
      | zero => exact ⟨⟨[0, 1, 2], 0, -1, 0, 7, false⟩, by simp, rfl⟩
      | succ j => simp [UG.C4exPatches] at hj)

theorem mapM_pyGetNat_ok (vilist : List Nat) : ∀ (t : List Nat),
    (∀ i ∈ t, i < vilist.length) →
    t.mapM (UG.pyGetNat vilist) = .ok (t.map (fun i => vilist.getD i 0)) := by
  intro t
  induction t with
  | nil => intro _; rfl
  | cons a t ih =>
    intro h
    have ha : a < vilist.length := h a (by simp)
    have hg : UG.pyGetNat vilist a = .ok (vilist.getD a 0) := by
      simp only [UG.pyGetNat, dif_pos ha]
      rw [List.getD_eq_getElem?_getD, List.getElem?_eq_getElem ha]
      rfl
    rw [List.mapM_cons, hg, ih (fun i hi => h i (by simp [hi]))]
    rfl

theorem lookup_append (k : String) : ∀ (l1 l2 : List (String × Nat)),
    List.lookup k (l1 ++ l2)
      = match List.lookup k l1 with
        | some v => some v
        | none => List.lookup k l2 := by
  intro l1
  induction l1 with
  | nil => intro l2; rfl
  | cons p t ih =>
    intro l2
    obtain ⟨ka, v⟩ := p
    cases hk : (k == ka) with
    | true => rw [List.cons_append, List.lookup, List.lookup, hk]
    | false => rw [List.cons_append, List.lookup, List.lookup, hk, ih]

theorem addFaceAndVerts_fields (ci fi : Nat) (st : UG.VtuState) :
    (UG.addFaceAndVerts ci fi st).ugfaces = st.ugfaces ∧
    (UG.addFaceAndVerts ci fi st).facemap = st.facemap ∧
    (UG.addFaceAndVerts ci fi st).ugcells.length = st.ugcells.length := by
  rcases hc : st.ugcells[ci]? with _ | c <;> rcases hf : st.ugfaces[fi]? with _ | f <;>
    simp [UG.addFaceAndVerts, hc, hf]

theorem acf_cons_err {ci : Nat} {fisverts : List Nat} {rest : List (List Nat)}
    {vilist : List Nat} {e : UG.VtuErr} {st : UG.VtuState}
    (hres : fisverts.mapM (UG.pyGetNat vilist) = .error e) :
    UG.add_cell_faces ci (fisverts :: rest) vilist false st = (st, some e) := by
  have hres' : (if false then Except.ok fisverts
      else fisverts.mapM (UG.pyGetNat vilist)) = Except.error e := hres
  simp only [UG.add_cell_faces, hres']

theorem acf_cons_fresh {ci : Nat} {fisverts : List Nat} {rest : List (List Nat)}
    {vilist real : List Nat} {st : UG.VtuState}
    (hres : fisverts.mapM (UG.pyGetNat vilist) = .ok real)
    (hlk : List.lookup (UG.get_vert_string real) st.facemap = none) :
    UG.add_cell_faces ci (fisverts :: rest) vilist false st
      = UG.add_cell_faces ci rest vilist false
          (UG.addFaceAndVerts ci st.ugfaces.length
            { st with ugfaces := st.ugfaces ++ [⟨real, some ci, none⟩],
                      facemap := st.facemap
                        ++ [(UG.get_vert_string real, st.ugfaces.length)] }) := by
  have hres' : (if false then Except.ok fisverts
      else fisverts.mapM (UG.pyGetNat vilist)) = Except.ok real := hres
  simp only [UG.add_cell_faces, hres', hlk, UG.addUGFace]

theorem acf_cons_hit_indexerr {ci : Nat} {fisverts : List Nat} {rest : List (List Nat)}
    {vilist real : List Nat} {st : UG.VtuState} {fi : Nat}
    (hres : fisverts.mapM (UG.pyGetNat vilist) = .ok real)
    (hlk : List.lookup (UG.get_vert_string real) st.facemap = some fi)
    (hface : st.ugfaces[fi]? = none) :
    UG.add_cell_faces ci (fisverts :: rest) vilist false st
      = (st, some .indexError) := by
  have hres' : (if false then Except.ok fisverts
      else fisverts.mapM (UG.pyGetNat vilist)) = Except.ok real := hres
  simp only [UG.add_cell_faces, hres', hlk, UG.setNeighbour, hface]

theorem acf_cons_hit_dup {ci : Nat} {fisverts : List Nat} {rest : List (List Nat)}
    {vilist real : List Nat} {st : UG.VtuState} {fi : Nat} {f : UG.UGFaceV}
    (hres : fisverts.mapM (UG.pyGetNat vilist) = .ok real)
    (hlk : List.lookup (UG.get_vert_string real) st.facemap = some fi)
    (hface : st.ugfaces[fi]? = some f)
    (hnb : f.neighbour.isSome) :
    UG.add_cell_faces ci (fisverts :: rest) vilist false st
      = (st, some .duplicateFaceOwnership) := by
  have hres' : (if false then Except.ok fisverts
      else fisverts.mapM (UG.pyGetNat vilist)) = Except.ok real := hres
  simp only [UG.add_cell_faces, hres', hlk, UG.setNeighbour, hface, hnb,
    eq_self_iff_true, if_true]

theorem acf_cons_hit {ci : Nat} {fisverts : List Nat} {rest : List (List Nat)}
    {vilist real : List Nat} {st : UG.VtuState} {fi : Nat} {f : UG.UGFaceV}
    (hres : fisverts.mapM (UG.pyGetNat vilist) = .ok real)
    (hlk : List.lookup (UG.get_vert_string real) st.facemap = some fi)
    (hface : st.ugfaces[fi]? = some f)
    (hnb : f.neighbour = none) :
    UG.add_cell_faces ci (fisverts :: rest) vilist false st
      = UG.add_cell_faces ci rest vilist false
          (UG.addFaceAndVerts ci fi
            { st with ugfaces := st.ugfaces.set fi { f with neighbour := some ci } }) := by
  have hres' : (if false then Except.ok fisverts
      else fisverts.mapM (UG.pyGetNat vilist)) = Except.ok real := hres
  simp only [UG.add_cell_faces, hres, hres', hlk, UG.setNeighbour, hface, hnb,
    Option.isSome_none, Bool.false_eq_true, if_false]

theorem add_cell_faces_append (ci : Nat) (vilist : List Nat) :
    ∀ (l1 l2 : List (List Nat)) (st : UG.VtuState),
    (UG.add_cell_faces ci l1 vilist false st).2 = none →
    UG.add_cell_faces ci (l1 ++ l2) vilist false st
      = UG.add_cell_faces ci l2 vilist false
          (UG.add_cell_faces ci l1 vilist false st).1 := by
  intro l1
  induction l1 with
  | nil => intro l2 st _; rfl
  | cons t l1 ih =>
    intro l2 st herr
    rcases hres : t.mapM (UG.pyGetNat vilist) with e | real
    · rw [acf_cons_err hres] at herr
      simp at herr
    · rcases hlk : List.lookup (UG.get_vert_string real) st.facemap with _ | fi
      · rw [acf_cons_fresh hres hlk] at herr
        rw [List.cons_append, acf_cons_fresh hres hlk, acf_cons_fresh hres hlk]
        exact ih l2 _ herr
      · rcases hface : st.ugfaces[fi]? with _ | f
        · rw [acf_cons_hit_indexerr hres hlk hface] at herr
          simp at herr
        · rcases hnb : f.neighbour with _ | c0
          · rw [acf_cons_hit hres hlk hface hnb] at herr
            rw [List.cons_append, acf_cons_hit hres hlk hface hnb,
              acf_cons_hit hres hlk hface hnb]
            exact ih l2 _ herr
          · rw [acf_cons_hit_dup hres hlk hface (by rw [hnb]; rfl)] at herr
            simp at herr

theorem add_cell_faces_fresh (ci : Nat) (vilist : List Nat) :
    ∀ (fis : List (List Nat)) (st : UG.VtuState),
    (∀ t ∈ fis, ∀ i ∈ t, i < vilist.length) →
    ((UG.resolveFis fis vilist).map UG.get_vert_string).Nodup →
    (∀ r ∈ UG.resolveFis fis vilist,
      List.lookup (UG.get_vert_string r) st.facemap = none) →
    ∃ cells', (UG.add_cell_faces ci fis vilist false st
      = ({ ugcells := cells',
           ugfaces := st.ugfaces ++ UG.newFaces ci (UG.resolveFis fis vilist),
           facemap := st.facemap
             ++ UG.newEntries (UG.resolveFis fis vilist) st.ugfaces.length }, none))
      ∧ cells'.length = st.ugcells.length := by
  intro fis
  induction fis with
  | nil =>
    intro st _ _ _
    refine ⟨st.ugcells, ?_, rfl⟩
    simp [UG.add_cell_faces, UG.resolveFis, UG.newFaces, UG.newEntries]
  | cons t fis ih =>
    intro st hb hnd hfr
    have hres := mapM_pyGetNat_ok vilist t (hb t (by simp))
    have hlk : List.lookup
        (UG.get_vert_string (t.map (fun i => vilist.getD i 0))) st.facemap = none :=
      hfr _ (by simp [UG.resolveFis])
    rw [acf_cons_fresh hres hlk]
    set st1 : UG.VtuState := { st with ugfaces := st.ugfaces ++ [⟨t.map (fun i => vilist.getD i 0), some ci, none⟩], facemap := st.facemap ++ [(UG.get_vert_string (t.map (fun i => vilist.getD i 0)), st.ugfaces.length)] } with hst1
    obtain ⟨hSf, hSm, hSc⟩ := addFaceAndVerts_fields ci st.ugfaces.length st1
    have hSf' : (UG.addFaceAndVerts ci st.ugfaces.length st1).ugfaces
        = st.ugfaces ++ [⟨t.map (fun i => vilist.getD i 0), some ci, none⟩] := by
      rw [hSf, hst1]
    have hSm' : (UG.addFaceAndVerts ci st.ugfaces.length st1).facemap
        = st.facemap ++ [(UG.get_vert_string (t.map (fun i => vilist.getD i 0)),
            st.ugfaces.length)] := by
      rw [hSm, hst1]
    have hSc' : (UG.addFaceAndVerts ci st.ugfaces.length st1).ugcells.length
        = st.ugcells.length := by
      rw [hSc, hst1]
    have hndt : ((UG.resolveFis fis vilist).map UG.get_vert_string).Nodup := by
      rw [UG.resolveFis, List.map_cons, List.map_cons] at hnd
      exact (List.nodup_cons.mp hnd).2
    have hhd : UG.get_vert_string (t.map (fun i => vilist.getD i 0))
        ∉ (UG.resolveFis fis vilist).map UG.get_vert_string := by
      rw [UG.resolveFis, List.map_cons, List.map_cons] at hnd
      have := (List.nodup_cons.mp hnd).1
      rw [UG.resolveFis]
      exact this
    obtain ⟨cells', hrec, hclen⟩ := ih
      (UG.addFaceAndVerts ci st.ugfaces.length st1)
      (fun t' ht' => hb t' (by simp [ht']))
      hndt
      (by
        intro r hr
        rw [hSm', lookup_append,
          hfr r (by rw [UG.resolveFis, List.map_cons]; rw [UG.resolveFis] at hr; exact List.mem_cons_of_mem _ hr)]
        show List.lookup (UG.get_vert_string r)
          [(UG.get_vert_string (t.map (fun i => vilist.getD i 0)), st.ugfaces.length)] = none
        rw [List.lookup,
          show (UG.get_vert_string r
              == UG.get_vert_string (t.map (fun i => vilist.getD i 0))) = false from by
            rw [beq_eq_false_iff_ne]
            intro heq
            exact hhd (by rw [← heq]; exact List.mem_map_of_mem UG.get_vert_string hr)]
        rfl)
    refine ⟨cells', ?_, by rw [hclen, hSc']⟩
    rw [hrec]
    simp only [hSf', hSm', UG.resolveFis, UG.newFaces, UG.newEntries, List.map_cons,
      List.length_append, List.length_cons, List.length_nil, List.append_assoc,
      List.singleton_append, Prod.mk.injEq, UG.VtuState.mk.injEq]

theorem lookup_newEntries_none (k : String) : ∀ (reals : List (List Nat)) (n : Nat),
    k ∉ reals.map UG.get_vert_string →
    List.lookup k (UG.newEntries reals n) = none := by
  intro reals
  induction reals with
  | nil => intro n _; rfl
  | cons r rest ih =>
    intro n hk
    rw [UG.newEntries, List.lookup,
      show (k == UG.get_vert_string r) = false from by
        rw [beq_eq_false_iff_ne]
        intro h
        exact hk (by rw [List.map_cons, h]; exact List.mem_cons_self _ _)]
    exact ih (n + 1) (fun h => hk (by rw [List.map_cons]; exact List.mem_cons_of_mem _ h))

theorem lookup_newEntries_hit (k : String) :
    ∀ (l1 : List (List Nat)) (r : List Nat) (l2 : List (List Nat)) (n : Nat),
    k ∉ l1.map UG.get_vert_string →
    k = UG.get_vert_string r →
    List.lookup k (UG.newEntries (l1 ++ r :: l2) n) = some (n + l1.length) := by
  intro l1
  induction l1 with
  | nil =>
    intro r l2 n _ hk
    rw [List.nil_append, UG.newEntries, List.lookup,
      show (k == UG.get_vert_string r) = true from by rw [beq_iff_eq]; exact hk]
    simp
  | cons r0 l1 ih =>
    intro r l2 n hk1 hk
    rw [List.cons_append, UG.newEntries, List.lookup,
      show (k == UG.get_vert_string r0) = false from by
        rw [beq_eq_false_iff_ne]
        intro h
        exact hk1 (by rw [List.map_cons, h]; exact List.mem_cons_self _ _)]
    show List.lookup k (UG.newEntries (l1 ++ r :: l2) (n + 1)) = some (n + (r0 :: l1).length)
    rw [ih r l2 (n + 1) (fun h => hk1 (by rw [List.map_cons]; exact List.mem_cons_of_mem _ h)) hk]
    simp only [List.length_cons, Option.some.injEq]
    omega

theorem getElem?_append_cons {α : Type} (l1 : List α) (x : α) (l2 : List α) :
    (l1 ++ x :: l2)[l1.length]? = some x := by
  rw [List.getElem?_append_right (Nat.le_refl _)]
  simp

theorem set_append_left {α : Type} (y : α) : ∀ (l1 l2 : List α) (n : Nat),
    n < l1.length → (l1 ++ l2).set n y = l1.set n y ++ l2 := by
  intro l1
  induction l1 with
  | nil => intro l2 n h; simp at h
  | cons a t ih =>
    intro l2 n h
    cases n with
    | zero => rfl
    | succ n =>
      rw [List.cons_append, List.set_cons_succ, List.set_cons_succ,
        ih l2 n (by simpa using h), List.cons_append]

theorem set_append_cons {α : Type} (y : α) : ∀ (l1 : List α) (x : α) (l2 : List α),
    (l1 ++ x :: l2).set l1.length y = l1 ++ y :: l2 := by
  intro l1
  induction l1 with
  | nil => intro x l2; rfl
  | cons a t ih =>
    intro x l2
    rw [List.cons_append, List.length_cons, List.set_cons_succ, ih, List.cons_append]

theorem filter_eq_singleton_split {α : Type} (p : α → Bool) : ∀ (l : List α) (a : α),
    l.filter p = [a] →
    ∃ l1 l2, l = l1 ++ a :: l2 ∧ (∀ x ∈ l1, p x = false) ∧
      (∀ x ∈ l2, p x = false) ∧ p a = true := by
  intro l
  induction l with
  | nil => intro a h; simp at h
  | cons x t ih =>
    intro a h
    by_cases hp : p x = true
    · rw [List.filter_cons_of_pos hp, List.cons.injEq] at h
      obtain ⟨rfl, h2⟩ := h
      refine ⟨[], t, rfl, by simp, ?_, hp⟩
      intro y hy
      have := List.filter_eq_nil_iff.mp h2 y hy
      simpa using this
    · rw [List.filter_cons_of_neg hp] at h
      obtain ⟨l1, l2, rfl, h1, h2, h3⟩ := ih a h
      simp only [Bool.not_eq_true] at hp
      refine ⟨x :: l1, l2, rfl, ?_, h2, h3⟩
      intro y hy
      rcases List.mem_cons.mp hy with rfl | hy'
      · exact hp
      · exact h1 y hy'

theorem newFaces_append (ci : Nat) (l1 l2 : List (List Nat)) :
    UG.newFaces ci (l1 ++ l2) = UG.newFaces ci l1 ++ UG.newFaces ci l2 := by
  simp [UG.newFaces]

theorem filter_isSome_newFaces (ci : Nat) : ∀ (reals : List (List Nat)),
    (UG.newFaces ci reals).filter (fun f => f.neighbour.isSome) = [] := by
  intro reals
  induction reals with
  | nil => rfl
  | cons r rest ih =>
    rw [UG.newFaces, List.map_cons, List.filter_cons_of_neg (by simp)]
    rw [UG.newFaces] at ih
    exact ih

theorem filter_key_newFaces_nil (ci : Nat) (kk : String) : ∀ (reals : List (List Nat)),
    kk ∉ reals.map UG.get_vert_string →
    (UG.newFaces ci reals).filter (fun f => UG.get_vert_string f.verts = kk) = [] := by
  intro reals
  induction reals with
  | nil => intro _; rfl
  | cons r rest ih =>
    intro hk
    rw [UG.newFaces, List.map_cons,
      List.filter_cons_of_neg (by
        simp only [decide_eq_true_eq]
        intro h
        exact hk (by rw [List.map_cons, ← h]; exact List.mem_cons_self _ _))]
    rw [UG.newFaces] at ih
    exact ih (fun h => hk (by rw [List.map_cons]; exact List.mem_cons_of_mem _ h))

theorem vtu_add_cell_12 (vilist polyfacelist : List Nat) (st : UG.VtuState) :
    UG.vtu_add_cell 12 vilist polyfacelist st
      = UG.add_cell_faces st.ugcells.length UG.hexFis vilist false (UG.addUGCell st) := by
  simp [UG.vtu_add_cell]

theorem getElem?_append_cons' {α : Type} (l1 : List α) (x : α) (l2 : List α) (n : Nat)
    (h : n = l1.length) : (l1 ++ x :: l2)[n]? = some x := by
  subst h
  exact getElem?_append_cons l1 x l2

theorem set_append_cons' {α : Type} (y : α) (l1 : List α) (x : α) (l2 : List α) (n : Nat)
    (h : n = l1.length) : (l1 ++ x :: l2).set n y = l1 ++ y :: l2 := by
  subst h
  exact set_append_cons y l1 x l2

/-- C2: for a VTU import of two hexahedron cells (type 12) whose per-cell
resolved canonical face keys are duplicate-free and which share exactly one
face key — `tsh` being the unique template of the second cell resolving to
a key of the first cell — both cells import cleanly and the Face
Deduplication Engine produces exactly one Face record carrying the shared
key: it keeps the first cell's winding `rsh`, has the first cell (0) as
owner and the second cell (1) as neighbour, and is the only Face record
with any neighbour; the shared face is never materialised as two separate
unshared records (11 Face records in all, not 12). -/
theorem C2_hex_shared_face_dedup (vilist1 vilist2 tsh : List Nat)
    (h1 : vilist1.length = 8) (h2 : vilist2.length = 8)
    (hnd1 : ((UG.resolveFis UG.hexFis vilist1).map UG.get_vert_string).Nodup)
    (hnd2 : ((UG.resolveFis UG.hexFis vilist2).map UG.get_vert_string).Nodup)
    (hsh : UG.hexFis.filter (fun t =>
        UG.get_vert_string (t.map (fun i => vilist2.getD i 0))
          ∈ (UG.resolveFis UG.hexFis vilist1).map UG.get_vert_string) = [tsh]) :
    ∃ st1 st2 rsh,
      UG.vtu_add_cell 12 vilist1 [] UG.VtuState.empty = (st1, none) ∧
      UG.vtu_add_cell 12 vilist2 [] st1 = (st2, none) ∧
      rsh ∈ UG.resolveFis UG.hexFis vilist1 ∧
      UG.get_vert_string rsh
        = UG.get_vert_string (tsh.map (fun i => vilist2.getD i 0)) ∧
      st2.ugfaces.length = 11 ∧
      st2.ugfaces.filter (fun f => f.neighbour.isSome)
        = [⟨rsh, some 0, some 1⟩] ∧
      st2.ugfaces.filter (fun f =>
        UG.get_vert_string f.verts
          = UG.get_vert_string (tsh.map (fun i => vilist2.getD i 0)))
        = [⟨rsh, some 0, some 1⟩] := by
  have hb1 : ∀ t ∈ UG.hexFis, ∀ i ∈ t, i < vilist1.length := by rw [h1]; decide
  have hb2 : ∀ t ∈ UG.hexFis, ∀ i ∈ t, i < vilist2.length := by rw [h2]; decide
  obtain ⟨cells1, hrun1, hclen1⟩ := add_cell_faces_fresh 0 vilist1 UG.hexFis
    (UG.addUGCell UG.VtuState.empty) hb1 hnd1 (fun r hr => rfl)
  have hst1 : UG.vtu_add_cell 12 vilist1 [] UG.VtuState.empty
      = ({ ugcells := cells1, ugfaces := UG.newFaces 0 (UG.resolveFis UG.hexFis vilist1), facemap := UG.newEntries (UG.resolveFis UG.hexFis vilist1) 0 }, none) := by
    rw [vtu_add_cell_12]
    show UG.add_cell_faces 0 UG.hexFis vilist1 false (UG.addUGCell UG.VtuState.empty) = _
    rw [hrun1]
    rfl
  have hc1 : cells1.length = 1 := hclen1
  obtain ⟨pre, post, hfis2, hpre, hpost, hpt⟩ :=
    filter_eq_singleton_split _ UG.hexFis tsh hsh
  have hksh : UG.get_vert_string (tsh.map (fun i => vilist2.getD i 0))
      ∈ (UG.resolveFis UG.hexFis vilist1).map UG.get_vert_string := by
    simpa using hpt
  obtain ⟨rsh, hrshmem, hkey⟩ := List.mem_map.mp hksh
  obtain ⟨R1a, R1b, hR1⟩ := List.append_of_mem hrshmem
  have hnd1' := hnd1
  rw [hR1, List.map_append, List.map_cons] at hnd1'
  obtain ⟨hnotmem, _⟩ := List.nodup_cons.mp (List.nodup_middle.mp hnd1')
  have hkA : UG.get_vert_string (tsh.map (fun i => vilist2.getD i 0))
      ∉ R1a.map UG.get_vert_string := by
    rw [← hkey]
    exact fun h => hnotmem (List.mem_append.mpr (Or.inl h))
  have hkB : UG.get_vert_string (tsh.map (fun i => vilist2.getD i 0))
      ∉ R1b.map UG.get_vert_string := by
    rw [← hkey]
    exact fun h => hnotmem (List.mem_append.mpr (Or.inr h))
  have hnd2' := hnd2
  simp only [hfis2, UG.resolveFis, List.map_append, List.map_cons] at hnd2'
  obtain ⟨hnotmem2, hnodup2rest⟩ := List.nodup_cons.mp (List.nodup_middle.mp hnd2')
  have hdisj2 := List.disjoint_of_nodup_append hnodup2rest
  have hndpre : ((UG.resolveFis pre vilist2).map UG.get_vert_string).Nodup :=
    hnodup2rest.of_append_left
  have hndpost : ((UG.resolveFis post vilist2).map UG.get_vert_string).Nodup :=
    hnodup2rest.of_append_right
  have hbpre : ∀ t ∈ pre, ∀ i ∈ t, i < vilist2.length := by
    intro t ht
    exact hb2 t (by rw [hfis2]; exact List.mem_append.mpr (Or.inl ht))
  have hbpost : ∀ t ∈ post, ∀ i ∈ t, i < vilist2.length := by
    intro t ht
    exact hb2 t (by
      rw [hfis2]
      exact List.mem_append.mpr (Or.inr (List.mem_cons_of_mem _ ht)))
  have hkPre : UG.get_vert_string (tsh.map (fun i => vilist2.getD i 0))
      ∉ (UG.resolveFis pre vilist2).map UG.get_vert_string := by
    intro hmem
    obtain ⟨r, hr, hkr⟩ := List.mem_map.mp hmem
    obtain ⟨t, ht, rfl⟩ := List.mem_map.mp hr
    have hft := hpre t ht
    rw [decide_eq_false_iff_not] at hft
    exact hft (by rw [hkr]; exact hksh)
  have hkPost : UG.get_vert_string (tsh.map (fun i => vilist2.getD i 0))
      ∉ (UG.resolveFis post vilist2).map UG.get_vert_string := by
    intro hmem
    obtain ⟨r, hr, hkr⟩ := List.mem_map.mp hmem
    obtain ⟨t, ht, rfl⟩ := List.mem_map.mp hr
    have hft := hpost t ht
    rw [decide_eq_false_iff_not] at hft
    exact hft (by rw [hkr]; exact hksh)
  have hcall2 : UG.vtu_add_cell 12 vilist2 []
      { ugcells := cells1, ugfaces := UG.newFaces 0 (UG.resolveFis UG.hexFis vilist1), facemap := UG.newEntries (UG.resolveFis UG.hexFis vilist1) 0 }
      = UG.add_cell_faces 1 UG.hexFis vilist2 false
          (UG.addUGCell { ugcells := cells1, ugfaces := UG.newFaces 0 (UG.resolveFis UG.hexFis vilist1), facemap := UG.newEntries (UG.resolveFis UG.hexFis vilist1) 0 }) := by
    rw [vtu_add_cell_12]
    show UG.add_cell_faces cells1.length UG.hexFis vilist2 false _ = _
    rw [hc1]
  obtain ⟨cells2a, hrunA, hclenA⟩ := add_cell_faces_fresh 1 vilist2 pre
    (UG.addUGCell { ugcells := cells1, ugfaces := UG.newFaces 0 (UG.resolveFis UG.hexFis vilist1), facemap := UG.newEntries (UG.resolveFis UG.hexFis vilist1) 0 })
    hbpre hndpre
    (by
      intro r hr
      show List.lookup (UG.get_vert_string r)
        (UG.newEntries (UG.resolveFis UG.hexFis vilist1) 0) = none
      apply lookup_newEntries_none
      obtain ⟨t, ht, rfl⟩ := List.mem_map.mp hr
      have hft := hpre t ht
      rw [decide_eq_false_iff_not] at hft
      exact hft)
  have hstA : UG.add_cell_faces 1 pre vilist2 false
      (UG.addUGCell { ugcells := cells1, ugfaces := UG.newFaces 0 (UG.resolveFis UG.hexFis vilist1), facemap := UG.newEntries (UG.resolveFis UG.hexFis vilist1) 0 })
      = ({ ugcells := cells2a, ugfaces := UG.newFaces 0 (UG.resolveFis UG.hexFis vilist1) ++ UG.newFaces 1 (UG.resolveFis pre vilist2), facemap := UG.newEntries (UG.resolveFis UG.hexFis vilist1) 0 ++ UG.newEntries (UG.resolveFis pre vilist2) 6 }, none) := hrunA
  have hstep : UG.add_cell_faces 1 UG.hexFis vilist2 false
      (UG.addUGCell { ugcells := cells1, ugfaces := UG.newFaces 0 (UG.resolveFis UG.hexFis vilist1), facemap := UG.newEntries (UG.resolveFis UG.hexFis vilist1) 0 })
      = UG.add_cell_faces 1 (tsh :: post) vilist2 false
          { ugcells := cells2a, ugfaces := UG.newFaces 0 (UG.resolveFis UG.hexFis vilist1) ++ UG.newFaces 1 (UG.resolveFis pre vilist2), facemap := UG.newEntries (UG.resolveFis UG.hexFis vilist1) 0 ++ UG.newEntries (UG.resolveFis pre vilist2) 6 } := by
    nth_rewrite 1 [hfis2]
    rw [add_cell_faces_append 1 vilist2 pre (tsh :: post) (UG.addUGCell { ugcells := cells1, ugfaces := UG.newFaces 0 (UG.resolveFis UG.hexFis vilist1), facemap := UG.newEntries (UG.resolveFis UG.hexFis vilist1) 0 }) (by rw [hstA]), hstA]
  have hressh := mapM_pyGetNat_ok vilist2 tsh
    (hb2 tsh (by rw [hfis2]; exact List.mem_append.mpr (Or.inr (List.mem_cons_self _ _))))
  have hlksh : List.lookup (UG.get_vert_string (tsh.map (fun i => vilist2.getD i 0)))
      ({ ugcells := cells2a, ugfaces := UG.newFaces 0 (UG.resolveFis UG.hexFis vilist1) ++ UG.newFaces 1 (UG.resolveFis pre vilist2), facemap := UG.newEntries (UG.resolveFis UG.hexFis vilist1) 0 ++ UG.newEntries (UG.resolveFis pre vilist2) 6 } : UG.VtuState).facemap
      = some R1a.length := by
    show List.lookup _ (UG.newEntries (UG.resolveFis UG.hexFis vilist1) 0
      ++ UG.newEntries (UG.resolveFis pre vilist2) 6) = _
    rw [lookup_append, hR1, lookup_newEntries_hit _ R1a rsh R1b 0 hkA hkey.symm,
      Nat.zero_add]
  have hfacesh : ({ ugcells := cells2a, ugfaces := UG.newFaces 0 (UG.resolveFis UG.hexFis vilist1) ++ UG.newFaces 1 (UG.resolveFis pre vilist2), facemap := UG.newEntries (UG.resolveFis UG.hexFis vilist1) 0 ++ UG.newEntries (UG.resolveFis pre vilist2) 6 } : UG.VtuState).ugfaces[R1a.length]?
      = some ⟨rsh, some 0, none⟩ := by
    show (UG.newFaces 0 (UG.resolveFis UG.hexFis vilist1)
      ++ UG.newFaces 1 (UG.resolveFis pre vilist2))[R1a.length]? = _
    simp only [hR1, UG.newFaces, List.map_append, List.map_cons, List.append_assoc,
      List.cons_append]
    exact getElem?_append_cons' _ _ _ _ (List.length_map _ _).symm
  have hstep2 : UG.add_cell_faces 1 (tsh :: post) vilist2 false { ugcells := cells2a, ugfaces := UG.newFaces 0 (UG.resolveFis UG.hexFis vilist1) ++ UG.newFaces 1 (UG.resolveFis pre vilist2), facemap := UG.newEntries (UG.resolveFis UG.hexFis vilist1) 0 ++ UG.newEntries (UG.resolveFis pre vilist2) 6 }
      = UG.add_cell_faces 1 post vilist2 false
          (UG.addFaceAndVerts 1 R1a.length { ugcells := cells2a, ugfaces := (UG.newFaces 0 (UG.resolveFis UG.hexFis vilist1) ++ UG.newFaces 1 (UG.resolveFis pre vilist2)).set R1a.length ⟨rsh, some 0, some 1⟩, facemap := UG.newEntries (UG.resolveFis UG.hexFis vilist1) 0 ++ UG.newEntries (UG.resolveFis pre vilist2) 6 }) :=
    acf_cons_hit hressh hlksh hfacesh rfl
  obtain ⟨cells2c, hrunC, hclenC⟩ := add_cell_faces_fresh 1 vilist2 post
    (UG.addFaceAndVerts 1 R1a.length
      { ugcells := cells2a, ugfaces := (UG.newFaces 0 (UG.resolveFis UG.hexFis vilist1) ++ UG.newFaces 1 (UG.resolveFis pre vilist2)).set R1a.length ⟨rsh, some 0, some 1⟩, facemap := UG.newEntries (UG.resolveFis UG.hexFis vilist1) 0 ++ UG.newEntries (UG.resolveFis pre vilist2) 6 })
    hbpost hndpost
    (by
      intro r hr
      obtain ⟨h1f, h2f, h3f⟩ := addFaceAndVerts_fields 1 R1a.length
        { ugcells := cells2a, ugfaces := (UG.newFaces 0 (UG.resolveFis UG.hexFis vilist1) ++ UG.newFaces 1 (UG.resolveFis pre vilist2)).set R1a.length ⟨rsh, some 0, some 1⟩, facemap := UG.newEntries (UG.resolveFis UG.hexFis vilist1) 0 ++ UG.newEntries (UG.resolveFis pre vilist2) 6 }
      rw [h2f]
      show List.lookup (UG.get_vert_string r)
        (UG.newEntries (UG.resolveFis UG.hexFis vilist1) 0
          ++ UG.newEntries (UG.resolveFis pre vilist2) 6) = none
      have hnotK1 : UG.get_vert_string r
          ∉ (UG.resolveFis UG.hexFis vilist1).map UG.get_vert_string := by
        obtain ⟨t, ht, rfl⟩ := List.mem_map.mp hr
        have hft := hpost t ht
        rw [decide_eq_false_iff_not] at hft
        exact hft
      have hnotKpre : UG.get_vert_string r
          ∉ (UG.resolveFis pre vilist2).map UG.get_vert_string := by
        intro hmem
        exact hdisj2 hmem (List.mem_map_of_mem UG.get_vert_string hr)
      rw [lookup_append, lookup_newEntries_none _ _ _ hnotK1,
        lookup_newEntries_none _ _ _ hnotKpre])
  obtain ⟨fm2, hfinal⟩ : ∃ fm, UG.vtu_add_cell 12 vilist2 []
      { ugcells := cells1, ugfaces := UG.newFaces 0 (UG.resolveFis UG.hexFis vilist1), facemap := UG.newEntries (UG.resolveFis UG.hexFis vilist1) 0 }
      = ({ ugcells := cells2c, ugfaces := ((UG.newFaces 0 (UG.resolveFis UG.hexFis vilist1) ++ UG.newFaces 1 (UG.resolveFis pre vilist2)).set R1a.length ⟨rsh, some 0, some 1⟩) ++ UG.newFaces 1 (UG.resolveFis post vilist2), facemap := fm }, none) := by
    rw [hcall2, hstep, hstep2, hrunC]
    obtain ⟨h1f, h2f, h3f⟩ := addFaceAndVerts_fields 1 R1a.length
      { ugcells := cells2a, ugfaces := (UG.newFaces 0 (UG.resolveFis UG.hexFis vilist1) ++ UG.newFaces 1 (UG.resolveFis pre vilist2)).set R1a.length ⟨rsh, some 0, some 1⟩, facemap := UG.newEntries (UG.resolveFis UG.hexFis vilist1) 0 ++ UG.newEntries (UG.resolveFis pre vilist2) 6 }
    rw [h1f]
    exact ⟨_, rfl⟩
  have hp1lt : R1a.length
      < (UG.newFaces 0 (UG.resolveFis UG.hexFis vilist1)).length := by
    rw [hR1]
    simp [UG.newFaces]
  have hsetform : (UG.newFaces 0 (UG.resolveFis UG.hexFis vilist1)
      ++ UG.newFaces 1 (UG.resolveFis pre vilist2)).set R1a.length
        (⟨rsh, some 0, some 1⟩ : UG.UGFaceV)
      = (UG.newFaces 0 R1a ++ (⟨rsh, some 0, some 1⟩ : UG.UGFaceV)
          :: UG.newFaces 0 R1b)
        ++ UG.newFaces 1 (UG.resolveFis pre vilist2) := by
    rw [set_append_left _ _ _ _ hp1lt, hR1, newFaces_append,
      show UG.newFaces 0 (rsh :: R1b)
        = (⟨rsh, some 0, none⟩ : UG.UGFaceV) :: UG.newFaces 0 R1b from rfl,
      set_append_cons' _ _ _ _ _ (by rw [UG.newFaces, List.length_map])]
  refine ⟨_, _, rsh, hst1, hfinal, hrshmem, hkey, ?_, ?_, ?_⟩
  · show (((UG.newFaces 0 (UG.resolveFis UG.hexFis vilist1)
        ++ UG.newFaces 1 (UG.resolveFis pre vilist2)).set R1a.length
          ⟨rsh, some 0, some 1⟩)
        ++ UG.newFaces 1 (UG.resolveFis post vilist2)).length = 11
    rw [hsetform]
    have e1 : (UG.resolveFis UG.hexFis vilist1).length = 6 := by
      simp [UG.resolveFis, UG.hexFis]
    rw [hR1] at e1
    simp only [List.length_append, List.length_cons] at e1
    have e2 : UG.hexFis.length = 6 := rfl
    rw [hfis2] at e2
    simp only [List.length_append, List.length_cons] at e2
    simp only [List.length_append, List.length_cons, UG.newFaces, List.length_map,
      UG.resolveFis]
    omega
  · show (((UG.newFaces 0 (UG.resolveFis UG.hexFis vilist1)
        ++ UG.newFaces 1 (UG.resolveFis pre vilist2)).set R1a.length
          ⟨rsh, some 0, some 1⟩)
        ++ UG.newFaces 1 (UG.resolveFis post vilist2)).filter
          (fun f => f.neighbour.isSome) = [⟨rsh, some 0, some 1⟩]
    rw [hsetform]
    simp only [List.filter_append]
    rw [List.filter_cons_of_pos (by rfl), filter_isSome_newFaces,
      filter_isSome_newFaces, filter_isSome_newFaces, filter_isSome_newFaces]
    simp
  · show (((UG.newFaces 0 (UG.resolveFis UG.hexFis vilist1)
        ++ UG.newFaces 1 (UG.resolveFis pre vilist2)).set R1a.length
          ⟨rsh, some 0, some 1⟩)
        ++ UG.newFaces 1 (UG.resolveFis post vilist2)).filter
          (fun f => UG.get_vert_string f.verts
            = UG.get_vert_string (tsh.map (fun i => vilist2.getD i 0)))
        = [⟨rsh, some 0, some 1⟩]
    rw [hsetform]
    simp only [List.filter_append]
    rw [List.filter_cons_of_pos (by simp only [decide_eq_true_eq]; exact hkey),
      filter_key_newFaces_nil 0 _ R1a hkA, filter_key_newFaces_nil 0 _ R1b hkB,
      filter_key_newFaces_nil 1 _ _ hkPre, filter_key_newFaces_nil 1 _ _ hkPost]
    simp

theorem C2_hex_shared_face_dedup_witness :
    ∃ st1 st2 rsh,
      UG.vtu_add_cell 12 [0, 1, 2, 3, 4, 5, 6, 7] [] UG.VtuState.empty
        = (st1, none) ∧
      UG.vtu_add_cell 12 [4, 5, 6, 7, 8, 9, 10, 11] [] st1 = (st2, none) ∧
      rsh ∈ UG.resolveFis UG.hexFis [0, 1, 2, 3, 4, 5, 6, 7] ∧
      UG.get_vert_string rsh
        = UG.get_vert_string
            (([0, 3, 2, 1] : List Nat).map
              (fun i => ([4, 5, 6, 7, 8, 9, 10, 11] : List Nat).getD i 0)) ∧
      st2.ugfaces.length = 11 ∧
      st2.ugfaces.filter (fun f => f.neighbour.isSome)
        = [⟨rsh, some 0, some 1⟩] ∧
      st2.ugfaces.filter (fun f =>
        UG.get_vert_string f.verts
          = UG.get_vert_string
              (([0, 3, 2, 1] : List Nat).map
                (fun i => ([4, 5, 6, 7, 8, 9, 10, 11] : List Nat).getD i 0)))
        = [⟨rsh, some 0, some 1⟩] :=
  C2_hex_shared_face_dedup [0, 1, 2, 3, 4, 5, 6, 7] [4, 5, 6, 7, 8, 9, 10, 11]
    [0, 3, 2, 1] rfl rfl (by decide) (by decide) (by decide)
